import Mathlib

/-!
Shallow embedding of the retrieval / re-ranking core of the kahulugan
legal-RAG service, together with proofs settling the frozen claims about it.

Conventions used throughout this development:
* JavaScript numbers are modelled as elements of a `LinearOrderedField`
  (instantiated at `ℝ` in the theorems about `Math.exp`-based scores); the
  float literals `0.2`, `0.7`, `0.3` of the source are modelled as the exact
  rationals `1/5`, `7/10`, `3/10`, and `Math.exp` as `Real.exp`.
* JavaScript strings are Lean `String`s; all string manipulation is defined
  structurally over `List Char` so that every definition evaluates inside
  the kernel.  `null`/`undefined`-able values are `Option`s; `x || d` on a
  number is `jsNumOr` (absence and `0` are both falsy), `s || ''` is
  `Option.getD`.
* JavaScript's stable `Array.prototype.sort` is modelled by the stable
  insertion sort `jsSortBy` (extensionally the unique stable sort for the
  total comparators used by the source).
* External effects (the Postgres vector query, the embedding provider, file
  reads, `Date.parse`, the LLM calls) are oracle fields of explicit
  environment structures; everything the repository itself computes is
  translated directly from the source.
-/

/-- JavaScript word character, the `\w` class: ASCII letters, digits, `_`. -/
def jsWordChar (c : Char) : Bool :=
  (c.isAlphanum && c.toNat < 128) || c = '_'

/-- Case-insensitive character equality (ASCII lowering, as in the source's
`toLowerCase` and the regex `i` flag on ASCII data). -/
def charEqCI (a b : Char) : Bool :=
  a.toLower = b.toLower

/-- Lowercase a character list (JavaScript `toLowerCase` on the data the
source handles). -/
def jsLowerL (cs : List Char) : List Char :=
  cs.map Char.toLower

/-- Does `pat` occur in `hay` starting at position `i` (exact characters)? -/
def listMatchAt (hay pat : List Char) (i : Nat) : Bool :=
  (hay.drop i).take pat.length == pat

/-- Does `pat` occur in `hay` starting at position `i`, case-insensitively? -/
def listMatchAtCI (hay pat : List Char) (i : Nat) : Bool :=
  listMatchAt (jsLowerL hay) (jsLowerL pat) i

/-- JavaScript `hay.includes(pat)`: substring containment test. -/
def listIncludes (hay pat : List Char) : Bool :=
  (List.range (hay.length + 1)).any (fun i => listMatchAt hay pat i)

/-- JavaScript `hay.includes(pat)` on strings. -/
def jsIncludes (hay pat : String) : Bool :=
  listIncludes hay.toList pat.toList

/-- Case-insensitive substring containment. -/
def listIncludesCI (hay pat : List Char) : Bool :=
  listIncludes (jsLowerL hay) (jsLowerL pat)

/-- Case-insensitive substring containment on strings. -/
def jsIncludesCI (hay pat : String) : Bool :=
  listIncludesCI hay.toList pat.toList

/-- Case-insensitive string equality. -/
def jsEqCI (a b : String) : Bool :=
  jsLowerL a.toList == jsLowerL b.toList

/-- Split a character list at every character satisfying `p` (the semantics
of Lean's `String.split` and of JavaScript `split` on a single-character
class).  The source splits on `/\s+/`; a run of separators here produces
extra empty pieces, which every consumer in the source discards via a
length filter (`> 2` or `> 3`), so the two are observationally equal. -/
def splitOnPred (p : Char → Bool) : List Char → List (List Char)
  | [] => [[]]
  | c :: rest =>
    match splitOnPred p rest with
    | [] => [[]]
    | h :: t => if p c then [] :: h :: t else (c :: h) :: t

/-- JavaScript `String.prototype.trim`: strip leading and trailing
whitespace. -/
def jsTrimL (cs : List Char) : List Char :=
  ((cs.dropWhile (fun c => c.isWhitespace)).reverse.dropWhile
    (fun c => c.isWhitespace)).reverse

/-- JavaScript `trim` on strings. -/
def jsTrim (s : String) : String :=
  ⟨jsTrimL s.toList⟩

/-- Stable insertion of `a` into `l`: `a` goes after every element `b` with
`le b a`.  Together with `jsSortBy` this is the stable sort that models
JavaScript's `Array.prototype.sort`. -/
def stableInsert (le : α → α → Bool) (a : α) : List α → List α
  | [] => [a]
  | b :: t => if le b a then b :: stableInsert le a t else a :: b :: t

/-- Stable sort by a boolean comparator; models JavaScript's stable
`Array.prototype.sort` for the total comparators the source uses. -/
def jsSortBy (le : α → α → Bool) (l : List α) : List α :=
  l.foldr (stableInsert le) []

/-- Model of `src/utils/downsample.mjs`, `downsampleEmbedding`: deterministic
block-averaging downsample shared by the import and query paths.  A falsy
`targetDim` is modelled as `0`.  `Number(x) || 0` on an entry of a numeric
vector is the entry itself. -/
def downsampleEmbedding (embedding : List ℚ) (targetDim : Nat) : List ℚ :=
  let origDim := embedding.length
  if targetDim = 0 ∨ origDim ≤ targetDim then embedding
  else
    (List.range targetDim).map (fun i =>
      let start := i * origDim / targetDim
      let stop := (i + 1) * origDim / targetDim
      if stop ≤ start then embedding.getD (min start (origDim - 1)) 0
      else (((List.range (stop - start)).map
              (fun j => embedding.getD (start + j) 0)).sum) / ((max 1 (stop - start) : Nat) : ℚ))

/-- A match record as consumed by `scoreMatches` (`src/search/scoring.mjs`):
the fields the scorer reads (`text`, `dist`) plus identifying fields that
the object spread `{...m}` carries through unchanged. -/
structure SearchMatch (K : Type) where
  uuid : String
  filename : Option String
  text : Option String
  dist : Option K
deriving DecidableEq, Repr

/-- A scored match: the input record (spread `{...m}`) plus the three scores
attached by `scoreMatches`. -/
structure ScoredMatch (K : Type) where
  base : SearchMatch K
  semanticScore : K
  keywordScore : K
  relevanceScore : K
deriving DecidableEq, Repr

/-- JavaScript `v || d` for an optional number `v`: both absence and `0`
(falsy) fall back to the default `d`. -/
def jsNumOr (K : Type) [LinearOrderedField K] (v : Option K) (d : K) : K :=
  match v with
  | none => d
  | some x => if x = 0 then d else x

/-- The query-word list of `keywordMatch`: lowercased whitespace-split words
of length `> 2`. -/
def kwWords (query : String) : List (List Char) :=
  (splitOnPred (fun c => c.isWhitespace) (jsLowerL query.toList)).filter
    (fun w => 2 < w.length)

/-- The number of query words that occur as substrings of the lowercased
text. -/
def kwHits (text query : String) : Nat :=
  ((kwWords query).filter (fun w => listIncludes (jsLowerL text.toList) w)).length

/-- Model of `src/search/scoring.mjs`, `keywordMatch`: fraction of the query's words
of length `> 2` (lowercased) that occur as substrings of the lowercased
text; `0` when there are no such query words. -/
def keywordMatch (K : Type) [LinearOrderedField K] (text query : String) : K :=
  if 0 < (kwWords query).length
  then (kwHits text query : K) / ((kwWords query).length : K)
  else 0

/-- Model of `src/search/scoring.mjs`, `distanceToSimilarity`: `Math.exp (-distance)`,
with the exponential function passed in (`Real.exp` at the intended
instantiation). -/
def distanceToSimilarity (K : Type) [LinearOrderedField K]
    (expF : K → K) (distance : K) : K :=
  expF (-distance)

/-- The map step of `scoreMatches`: score one match.  The source reads
`m.text || ''` and `m.dist || 2`. -/
def scoreOne (K : Type) [LinearOrderedField K] (expF : K → K)
    (query : String) (m : SearchMatch K) : ScoredMatch K :=
  let keywordScore := keywordMatch K (m.text.getD "") query
  let semanticScore := distanceToSimilarity K expF (jsNumOr K m.dist 2)
  ⟨m, semanticScore, keywordScore, semanticScore * (7/10) + keywordScore * (3/10)⟩

/-- Model of `src/search/scoring.mjs`, `scoreMatches`: map to scores, keep
`relevanceScore > 0.2`, stable-sort descending by `relevanceScore` (the
JavaScript comparator `b.rel - a.rel` under a stable sort), truncate to
`maxResults`. -/
def scoreMatches (K : Type) [LinearOrderedField K] (expF : K → K)
    (ms : List (SearchMatch K)) (query : String) (maxResults : Nat) :
    List (ScoredMatch K) :=
  ((jsSortBy (fun a b => decide (b.relevanceScore ≤ a.relevanceScore))
      ((ms.map (scoreOne K expF query)).filter
        (fun m => decide ((1/5 : K) < m.relevanceScore)))).take maxResults)

/-- Sentence-terminator class of the snippet extractor's regex `[.!?]`. -/
def isTermChar (c : Char) : Bool :=
  c = '.' || c = '!' || c = '?'

/-- Worker for `splitSentences`: left-to-right scan maintaining the current
run of non-terminator characters `curNT` and the following run of
terminator characters `curT`; a sentence `curNT ++ curT` is emitted when a
new non-terminator character arrives after a terminator run (or at the end
of the text).  This is exactly the successive-match semantics of the global
regex `[^.!?]+[.!?]+`. -/
def splitSentencesCore : List Char → List (List Char) → List Char → List Char →
    List (List Char)
  | [], out, curNT, curT =>
    if curT.isEmpty then out else out ++ [curNT ++ curT]
  | c :: rest, out, curNT, curT =>
    if isTermChar c then
      if curNT.isEmpty then splitSentencesCore rest out curNT curT
      else splitSentencesCore rest out curNT (curT ++ [c])
    else
      if curT.isEmpty then splitSentencesCore rest out (curNT ++ [c]) curT
      else splitSentencesCore rest (out ++ [curNT ++ curT]) [c] []

/-- Model of `text.match(/[^.!?]+[.!?]+/g) || []` in
`src/search/snippetExtractors.mjs`: the list of sentences, each a maximal
run of non-terminators followed by its run of terminators; a `null` match
result is the empty list. -/
def splitSentences (text : String) : List (List Char) :=
  splitSentencesCore text.toList [] [] []

/-- The sentinel phrase `UNKNOWN_PHRASE` of `src/context.mjs`. -/
def UNKNOWN_PHRASE : String := "Insufficient information"

/-- Query keywords of the snippet extractor: lowercased whitespace-split
words of length `> 3`. -/
def snippetKeywords (query : String) : List (List Char) :=
  (splitOnPred (fun c => c.isWhitespace) (jsLowerL query.toList)).filter
    (fun w => 3 < w.length)

/-- Score of one sentence in the heuristic snippet path: the number of query
keywords contained in the lowercased sentence. -/
def sentenceScore (query : String) (sentence : List Char) : Nat :=
  ((snippetKeywords query).filter
    (fun w => listIncludes (jsLowerL sentence) w)).length

/-- The `{sentence: sentence.trim(), score, index}` records built by the
heuristic snippet path (the index only matters for sort stability, which
`jsSortBy` provides, so it is not stored). -/
def scoredSentences (text query : String) : List (List Char × Nat) :=
  (splitSentences text).map (fun s => (jsTrimL s, sentenceScore query s))

/-- Truncation used by both snippet paths:
`s.length > 300 ? s.substring(0, 300) + '...' : s`. -/
def jsTruncateEllipsis (s : List Char) : String :=
  if 300 < s.length then ⟨s.take 300 ++ ['.', '.', '.']⟩ else ⟨s⟩

/-- Model of `src/search/snippetExtractors.mjs`, `extractRelevantSnippet`.  The
`llm` argument is the outcome of the (external) call to
`extractRelevantSnippetWithLLM` when `useLLM` is set: `none` models a
thrown error, `some l` its return value; the guard
`llm && llm.trim() && llm !== UNKNOWN_PHRASE` accepts it, anything else
falls through to the heuristic keyword path. -/
def extractRelevantSnippet (useLLM : Bool) (llm : Option String)
    (text query : String) : String :=
  if (splitSentences text).isEmpty then UNKNOWN_PHRASE
  else
    let llmAccepted : Option String :=
      if useLLM then
        match llm with
        | some l =>
          if l ≠ "" ∧ jsTrim l ≠ "" ∧ l ≠ UNKNOWN_PHRASE then some l else none
        | none => none
      else none
    match llmAccepted with
    | some l => jsTruncateEllipsis l.toList
    | none =>
      let top := (jsSortBy (fun a b => b.2 ≤ a.2)
        ((scoredSentences text query).filter (fun s => 0 < s.2))).head?
      match top with
      | none => UNKNOWN_PHRASE
      | some t => jsTruncateEllipsis t.1

/-- Problematic characters targeted by
`src/formatter/characterRecovery.mjs`: U+FFFD or control characters other
than tab, line feed, carriage return. -/
def problematicChar (c : Char) : Bool :=
  c.toNat = 0xfffd || (c.toNat < 32 && c.toNat ≠ 9 && c.toNat ≠ 10 && c.toNat ≠ 13)

/-- Does the list start with the given pattern? -/
def listStartsWith (l pre : List Char) : Bool :=
  l.take pre.length == pre

/-- Head-of-list character test. -/
def headIs (p : Char → Bool) (l : List Char) : Bool :=
  match l with
  | [] => false
  | c :: _ => p c

/-- Last-of-list character test. -/
def lastIs (p : Char → Bool) (l : List Char) : Bool :=
  headIs p l.reverse

/-- The roman-numeral alternatives of the regex
`^\s*(i|ii|iii|iv|v|vi)\.?\s`. -/
def romanOpts : List (List Char) :=
  [['i'], ['i','i'], ['i','i','i'], ['i','v'], ['v'], ['v','i']]

/-- Test of `^\s*(i|ii|iii|iv|v|vi)\.?\s` on the (already lowercased)
context: after optional whitespace, one of the alternatives, an optional
dot, then a required whitespace character.  Regex backtracking makes this
an existence test over the alternatives. -/
def romanListTest (afterLower : List Char) : Bool :=
  let a := afterLower.dropWhile (fun c => c.isWhitespace)
  romanOpts.any (fun r =>
    listStartsWith a r &&
      (let rest := a.drop r.length
       (match rest with
        | '.' :: rest2 => headIs (fun c => c.isWhitespace) rest2
        | _ => false) ||
       headIs (fun c => c.isWhitespace) rest))

/-- Model of `src/formatter/characterRecovery.mjs`, `recoverCharacter`: pick a
replacement character from the 30-character contexts around a problematic
character.  Each regex of the source is translated test by test; note that
`/\(|\s$/` is (contains a parenthesis) OR (ends in whitespace) and
`/^\w|\d/` is (starts with a word character) OR (contains a digit), because
the alternation binds looser than the anchors. -/
def recoverCharacter (before after : List Char) : Char :=
  let beforeLower := jsLowerL before
  let afterLower := jsLowerL after
  if (listIncludes beforeLower "section".toList ||
      listIncludes beforeLower "rule".toList ||
      listIncludes beforeLower "article".toList ||
      listIncludes beforeLower "chapter".toList) &&
     headIs Char.isDigit (after.dropWhile (fun c => c.isWhitespace)) then '§'
  else if lastIs jsWordChar before && headIs jsWordChar after then '-'
  else if (before.contains '(' || lastIs (fun c => c.isWhitespace) before) &&
          (headIs jsWordChar after || after.any Char.isDigit) then '–'
  else if lastIs (fun c => jsWordChar c || c = '"') before &&
          (headIs (fun c => c = 's') afterLower &&
            !(listMatchAt afterLower ['s'] 0 &&
              headIs jsWordChar (afterLower.drop 1))) then '\''
  else if (lastIs jsWordChar before &&
           !(lastIs jsWordChar (before.dropLast))) &&
          headIs jsWordChar afterLower then '\''
  else if romanListTest afterLower then '°'
  else if lastIs jsWordChar before && headIs jsWordChar after then '-'
  else ' '

/-- Model of `src/formatter/characterRecovery.mjs`, `repairTextEncoding`: replace
each problematic character by `recoverCharacter` of its 30-character
before/after context in the original text (the source iterates from the
last problematic index to the first, with single-character replacements, so
contexts and indices refer to the original text). -/
def repairTextEncoding (cs : List Char) : List Char :=
  (List.range cs.length).map (fun i =>
    let c := cs.getD i ' '
    if problematicChar c then
      recoverCharacter ((cs.take i).drop (i - 30)) ((cs.drop (i + 1)).take 30)
    else c)

/-- One element of an encoding-artifact pattern: a literal character, the
regex dot (any character except line terminators), or the control-character
class `[\x00-\x08\x0B\x0C\x0E-\x1F]`. -/
inductive PatElem where
  | lit (c : Char)
  | anyDot
  | ctl
deriving DecidableEq, Repr

/-- Does one pattern element match one character? -/
def elemMatch : PatElem → Char → Bool
  | .lit c, d => c = d
  | .anyDot, d => !(d = '\n' || d = '\r' || d = ' ' || d = ' ')
  | .ctl, d => (d.toNat ≤ 0x08) || d.toNat = 0x0b || d.toNat = 0x0c ||
      (0x0e ≤ d.toNat && d.toNat ≤ 0x1f)

/-- Does the whole pattern match at the head of the list? -/
def patAtHead (cs : List Char) (pat : List PatElem) : Bool :=
  pat.length ≤ cs.length && ((cs.take pat.length).zip pat).all
    (fun p => elemMatch p.2 p.1)

/-- Fuel-indexed worker for a global regex replace-with-empty of a
fixed-length pattern (fuel is the list length, enough because every step
consumes at least one character). -/
def replacePatAux (pat : List PatElem) : Nat → List Char → List Char
  | 0, cs => cs
  | _ + 1, [] => []
  | fuel + 1, c :: rest =>
    if patAtHead (c :: rest) pat then
      replacePatAux pat fuel ((c :: rest).drop pat.length)
    else c :: replacePatAux pat fuel rest

/-- JavaScript `cleaned.replace(pattern, '')` for one fixed-length artifact
pattern, scanning left to right over non-overlapping matches. -/
def replacePat (pat : List PatElem) (cs : List Char) : List Char :=
  replacePatAux pat cs.length cs

/-- Turn the literal part of an artifact pattern into pattern elements. -/
def litPat (s : String) : List PatElem :=
  s.toList.map PatElem.lit

/-- The ordered `ENCODING_ARTIFACTS` table of
`src/formatter/encodingArtifacts.mjs`; an unescaped `.` in the source
regexes is the regex any-character dot. -/
def ENCODING_ARTIFACTS : List (List PatElem) :=
  [ litPat "1aшphi1",
    litPat "£A⩊phi£",
    litPat "1awp++i1",
    [PatElem.ctl],
    litPat "1-vvph-l" ++ [PatElem.anyDot] ++ litPat " n-t",
    [PatElem.lit '�'],
    litPat "шphi1",
    litPat "£A⩊phi",
    litPat "lawphi1" ++ [PatElem.anyDot] ++ litPat "net",
    litPat "1awphil" ++ [PatElem.anyDot] ++ litPat "ñêt",
    litPat "lawphil",
    litPat "ℒαwρhi৷",
    litPat "1âwphi1" ]

/-- Model of `src/formatter/encodingArtifacts.mjs`, `removeEncodingArtifacts`:
sequentially delete every artifact pattern. -/
def removeEncodingArtifacts (cs : List Char) : List Char :=
  ENCODING_ARTIFACTS.foldl (fun acc pat => replacePat pat acc) cs

/-- Model of `src/formatter/formatter.mjs`, `formatDocument`: repair problematic
characters, then strip encoding artifacts.  `verifyContentIntegrity` only
feeds a log line and cannot throw on the values reaching it, so the `try`
branch that returns `formatted` is the behaviour. -/
def formatDocument (text : String) : String :=
  ⟨removeEncodingArtifacts (repairTextEncoding text.toList)⟩

/-- State-machine worker collapsing runs of characters satisfying `p` into
one space. -/
def collapseRunsAux (p : Char → Bool) : Bool → List Char → List Char
  | _, [] => []
  | prevInRun, c :: rest =>
    if p c then
      if prevInRun then collapseRunsAux p true rest
      else ' ' :: collapseRunsAux p true rest
    else c :: collapseRunsAux p false rest

/-- JavaScript `s.replace(/X+/g, ' ')` for a single-character class `X`. -/
def collapseRuns (p : Char → Bool) (cs : List Char) : List Char :=
  collapseRunsAux p false cs

/-- Fuel-indexed worker for `replace(/([.!?])\s+\.\.\./g, '$1')`: a
terminator character followed by a whitespace run and three dots loses the
whitespace and the three dots; scanning continues after the match. -/
def replTermWsDotsAux : Nat → List Char → List Char
  | 0, cs => cs
  | _ + 1, [] => []
  | fuel + 1, c :: rest =>
    if isTermChar c then
      let w := rest.takeWhile (fun d => d.isWhitespace)
      if !w.isEmpty && listStartsWith (rest.drop w.length) ['.', '.', '.'] then
        c :: replTermWsDotsAux fuel (rest.drop (w.length + 3))
      else c :: replTermWsDotsAux fuel rest
    else c :: replTermWsDotsAux fuel rest

/-- Model of `replace(/([.!?])\s+\.\.\./g, '$1')`. -/
def replTermWsDots (cs : List Char) : List Char :=
  replTermWsDotsAux cs.length cs

/-- Fuel-indexed worker for `replace(/"\s+/g, '"')`: a double quote
followed by a whitespace run keeps only the quote. -/
def replQuoteWsAux : Nat → List Char → List Char
  | 0, cs => cs
  | _ + 1, [] => []
  | fuel + 1, c :: rest =>
    if c = '"' && headIs (fun d => d.isWhitespace) rest then
      '"' :: replQuoteWsAux fuel (rest.dropWhile (fun d => d.isWhitespace))
    else c :: replQuoteWsAux fuel rest

/-- Model of `replace(/"\s+/g, '"')`. -/
def replQuoteWs (cs : List Char) : List Char :=
  replQuoteWsAux cs.length cs

/-- Fuel-indexed worker for `replace(/\s+"/g, '"')`: a whitespace run
immediately followed by a double quote is replaced by the quote alone; a
whitespace run not followed by a quote is kept and scanning resumes after
it (backtracking inside the run cannot produce a match). -/
def replWsQuoteAux : Nat → List Char → List Char
  | 0, cs => cs
  | _ + 1, [] => []
  | fuel + 1, c :: rest =>
    if c.isWhitespace then
      let w := (c :: rest).takeWhile (fun d => d.isWhitespace)
      if headIs (fun d => d = '"') ((c :: rest).drop w.length) then
        '"' :: replWsQuoteAux fuel ((c :: rest).drop (w.length + 1))
      else w ++ replWsQuoteAux fuel ((c :: rest).drop w.length)
    else c :: replWsQuoteAux fuel rest

/-- Model of `replace(/\s+"/g, '"')`. -/
def replWsQuote (cs : List Char) : List Char :=
  replWsQuoteAux cs.length cs

/-- Model of `src/search/snippetExtractors.mjs`, `formatSnippet`: format the
snippet, then normalise whitespace and stray ellipses/quotes.  The
formatter is deterministic and total, so the `try` branch is the
behaviour. -/
def formatSnippet (snippet : String) : String :=
  ⟨replWsQuote (replQuoteWs (replTermWsDots (collapseRuns (fun c => c = '\n')
    (collapseRuns (fun c => c.isWhitespace) (jsTrimL (formatDocument snippet).toList)))))⟩

/-- Model of `src/search/snippetExtractors.mjs`, `formatLawName`: format, trim,
collapse whitespace and newlines, truncate to 200 characters. -/
def formatLawName (lawName : String) : String :=
  ⟨(collapseRuns (fun c => c = '\n')
    (collapseRuns (fun c => c.isWhitespace)
      (jsTrimL (formatDocument lawName).toList))).take 200⟩

/-- Word boundary in front of position `i`: start of string or a non-word
character before a word character (all patterns below start with a word
character, for which `\b` reduces to this test). -/
def boundaryBefore (hay : List Char) (i : Nat) : Bool :=
  i = 0 || !(jsWordChar (hay.getD (i - 1) ' '))

/-- Test of a pattern `\bDOTTED|\bBARE\b` (the shape of every entry of the
`abbrMap` of `generateTitleVariants`), case-insensitively, anywhere in
`s`. -/
def abbrPatTest (s : List Char) (dotted bare : String) : Bool :=
  ((List.range (s.length + 1)).any (fun i =>
      listMatchAtCI s dotted.toList i && boundaryBefore s i)) ||
  ((List.range (s.length + 1)).any (fun i =>
      listMatchAtCI s bare.toList i && boundaryBefore s i &&
        (i + bare.toList.length = s.length ||
          !(jsWordChar (s.getD (i + bare.toList.length) ' ')))))

/-- One row of the `abbrMap` of `generateTitleVariants`: the dotted regex
alternative, the bare word alternative, and the full instrument name. -/
structure AbbrEntry where
  dotted : String
  bare : String
  full : String

/-- The ordered `abbrMap` of `generateTitleVariants`
(`src/unnamed/part_006`). -/
def abbrMapEntries : List AbbrEntry :=
  [⟨"r.a.", "ra", "Republic Act"⟩,
   ⟨"g.r.", "gr", "G.R."⟩,
   ⟨"c.a.", "ca", "Commonwealth Act"⟩,
   ⟨"p.d.", "pd", "Presidential Decree"⟩,
   ⟨"a.o.", "ao", "Administrative Order"⟩,
   ⟨"b.p.", "bp", "Batas Pambansa"⟩,
   ⟨"m.c.", "mc", "Memorandum Circular"⟩,
   ⟨"a.m.", "am", "Administrative Matter"⟩,
   ⟨"e.o.", "eo", "Executive Order"⟩]

/-- Character class `[A-Za-z.\s]` (group 1 of the trailing-identifier
regex). -/
def idClass1 (c : Char) : Bool :=
  c.isAlpha || c = '.' || c.isWhitespace

/-- Character class `[0-9A-Za-z/\-._]` (group 2 of the trailing-identifier
and bare-abbreviation regexes). -/
def idClass2 (c : Char) : Bool :=
  c.isDigit || c.isAlpha || c = '/' || c = '-' || c = '.' || c = '_'

/-- Group 2 of the trailing-identifier regexes: a digit followed by
`idClass2` characters reaching the end of the string. -/
def idTailOK (s : List Char) : Bool :=
  headIs Char.isDigit s && s.all idClass2

/-- The deterministic remainder of the regex
`...\s*[:#-]?\s*([0-9][0-9A-Za-z/\-._]*)$` after group 1: greedy
whitespace, an optional separator (not taking it can never help, since
group 2 must start with a digit), greedy whitespace, then group 2 to the
end of the string.  Returns group 2. -/
def idRestMatch (rest : List Char) : Option (List Char) :=
  let r1 := rest.dropWhile (fun c => c.isWhitespace)
  let r2 := match r1 with
    | c :: t => if c = ':' || c = '#' || c = '-' then t else r1
    | [] => r1
  let r3 := r2.dropWhile (fun c => c.isWhitespace)
  if idTailOK r3 then some r3 else none

/-- Model of `idMatch` of `generateTitleVariants`: leftmost match of
`([A-Za-z.\s]{1,10})\s*[:#-]?\s*([0-9][0-9A-Za-z/\-._]*)$` with a greedy
group 1; returns the trailing identifier (group 2). -/
def idMatchSearch (s : List Char) : Option (List Char) :=
  (List.range s.length).findSome? (fun i =>
    (((List.range (min 10 (s.length - i))).reverse.map (· + 1)).findSome?
      (fun l =>
        if ((s.drop i).take l).all idClass1 then idRestMatch (s.drop (i + l))
        else none)))

/-- Model of `bareMatch` of `generateTitleVariants`:
`^([A-Za-z.]{1,5})\s*([0-9][0-9A-Za-z/\-._]*)$` with a greedy group 1;
returns (abbreviation, identifier). -/
def bareMatchOf (s : List Char) : Option (List Char × List Char) :=
  ((List.range (min 5 s.length)).reverse.map (· + 1)).findSome? (fun l =>
    if (s.take l).all (fun c => c.isAlpha || c = '.') then
      let rest := (s.drop l).dropWhile (fun c => c.isWhitespace)
      if idTailOK rest then some (s.take l, rest) else none
    else none)

/-- Test of `'^' + pat + '$'` where `pat = \bDOTTED|\bBARE\b`: the anchors
distribute over the alternation as `^\bDOTTED` or `\bBARE\b$`, i.e. a
case-insensitive dotted prefix, or a case-insensitive bare suffix preceded
by a word boundary. -/
def abbrAnchoredTest (ab : List Char) (dotted bare : String) : Bool :=
  listStartsWith (jsLowerL ab) dotted.toList ||
  (let bl := bare.toList
   bl.length ≤ ab.length &&
     listMatchAtCI ab bl (ab.length - bl.length) &&
     (ab.length = bl.length ||
       !(jsWordChar (ab.getD (ab.length - bl.length - 1) ' '))))

/-- The normalized-punctuation variant
`s.replace(/\s+/g, ' ').replace(/\./g, '').trim()`. -/
def cleanedVariant (s : List Char) : List Char :=
  jsTrimL ((collapseRuns (fun c => c.isWhitespace) s).filter (fun c => c ≠ '.'))

/-- Ordered insertion into the `Set`-backed variant list: keep the first
occurrence. -/
def addVariant (l : List (List Char)) (v : List Char) : List (List Char) :=
  if l.contains v then l else l ++ [v]

/-- Model of `generateTitleVariants` of `searchNearest` (`src/unnamed/part_006`):
expand an abbreviated title query into canonical full-name variants, in
`Set` insertion order, starting with the trimmed original. -/
def generateTitleVariants (q : String) : List String :=
  if q = "" then [q]
  else
    let s := jsTrimL q.toList
    let idPart := idMatchSearch s
    let afterAbbr := abbrMapEntries.foldl (fun acc (e : AbbrEntry) =>
      if abbrPatTest s e.dotted e.bare then
        let acc2 := match idPart with
          | some idp =>
            addVariant (addVariant (addVariant (addVariant acc
              (e.full.toList ++ (" No. ").toList ++ idp))
              (e.full.toList ++ (" ").toList ++ idp))
              (e.full.toList ++ (" No ").toList ++ idp))
              (e.full.toList ++ (" No.").toList ++ idp)
          | none => addVariant acc e.full.toList
        addVariant acc2 (cleanedVariant s)
      else acc) [s]
    let afterBare := match bareMatchOf s with
      | some (ab, idb) =>
        let acc2 := abbrMapEntries.foldl (fun acc (e : AbbrEntry) =>
          if abbrAnchoredTest ab e.dotted e.bare then
            addVariant (addVariant acc
              (e.full.toList ++ (" No. ").toList ++ idb))
              (e.full.toList ++ (" ").toList ++ idb)
          else acc) afterAbbr
        addVariant acc2 (ab ++ (" ").toList ++ idb)
      | none => afterAbbr
    afterBare.map (fun cs => ⟨cs⟩)

/-- Character class `[-0-9A-Za-z/]` (group 2 of `extractTypeEvidence`). -/
def teClass2 (c : Char) : Bool :=
  c = '-' || c.isDigit || c.isAlpha || c = '/'

/-- Consume a case-insensitive literal prefix. -/
def dropPrefixCI (l : List Char) (pat : String) : Option (List Char) :=
  if listMatchAtCI l pat.toList 0 then some (l.drop pat.toList.length) else none

/-- The remainder of `extractTypeEvidence` after the lazy group 1: greedy
whitespace, the optional group `(?:No\.?|Number|#)?` in regex alternation
priority order, greedy whitespace, then group 2 followed only by
whitespace.  Returns group 2. -/
def teAfterG1 (rest : List Char) : Option (List Char) :=
  let r1 := rest.dropWhile (fun c => c.isWhitespace)
  let tryTail := fun (r : List Char) =>
    let r2 := r.dropWhile (fun c => c.isWhitespace)
    let ev := r2.takeWhile teClass2
    if !ev.isEmpty && ((r2.drop ev.length).all (fun c => c.isWhitespace))
    then some ev else none
  ((dropPrefixCI r1 "no.").toList ++ (dropPrefixCI r1 "no").toList ++
    (dropPrefixCI r1 "number").toList ++ (dropPrefixCI r1 "#").toList ++
    [r1]).findSome? tryTail

/-- Model of `extractTypeEvidence` of `searchNearest` (`src/unnamed/part_006`):
parse `^\s*([A-Za-z.\s]{1,30}?)\s*(?:No\.?|Number|#)?\s*([-0-9A-Za-z/]+)\s*$`
(lazy group 1, applied to the trimmed query, so the outer `\s*` are
vacuous) into a `(type, evidence)` pair; `null` when the trimmed type or
evidence is empty. -/
def extractTypeEvidence (q : String) : Option (String × String) :=
  if q = "" then none
  else
    let s := jsTrimL q.toList
    match (List.range' 1 30).findSome? (fun l =>
      if ((s.take l).length = l) && (s.take l).all idClass1 then
        (teAfterG1 (s.drop l)).map (fun ev => ((s.take l), ev))
      else none) with
    | none => none
    | some (t, ev) =>
      let t' := jsTrimL t
      if t'.isEmpty || ev.isEmpty then none else some (⟨t'⟩, ⟨ev⟩)

/-- The full-name keyword regex of `chooseBestTitleVariant`
(case-insensitive substring alternation). -/
def fullKeywords : List String :=
  ["Republic", "Presidential", "Executive", "Administrative",
   "Commonwealth", "Batas", "Memorandum", "Administrative Matter",
   "Administrative Order", "Memorandum Circular"]

/-- Test of `/\bNo\.?\b/i`: an occurrence of `no` with a word boundary on
each side (the optional dot case is subsumed, a dot being a non-word
character). -/
def hasNoWord (v : List Char) : Bool :=
  (List.range (v.length + 1)).any (fun i =>
    listMatchAtCI v ['n', 'o'] i && boundaryBefore v i &&
      (i + 2 = v.length || !(jsWordChar (v.getD (i + 2) ' '))))

/-- Model of `chooseBestTitleVariant` of `searchNearest` (`src/unnamed/part_006`):
prefer variants containing a full-name keyword, then variants containing
the word `No`, otherwise all variants; return the longest of the chosen
pool (stable sort descending by length, first element). -/
def chooseBestTitleVariant (variants : List (List Char)) : Option (List Char) :=
  match variants with
  | [] => none
  | _ =>
    let c1 := variants.filter (fun v =>
      fullKeywords.any (fun kw => listIncludesCI v kw.toList))
    let c2 := if c1.isEmpty then variants.filter hasNoWord else c1
    let pool := if c2.isEmpty then variants else c2
    (jsSortBy (fun a b => b.length ≤ a.length) pool).head?

/-- One row of the joined store
`embeddings e LEFT JOIN documents m USING (uuid)` as read by the lookup
SQL of `searchNearest`; nullable columns are `Option`s. -/
structure DocRow where
  uuid : String
  filename : Option String
  relative_path : Option String
  date : Option String
  title : Option String
  category : Option String
deriving DecidableEq, Repr

/-- A candidate returned by `searchNearest`: the row fields it copies plus
the lazily loaded document body (`null` on a failed or skipped read).  The
`dist` column of the vector query is not copied into the result object. -/
structure Candidate where
  uuid : String
  filename : Option String
  relative_path : Option String
  date : Option String
  text : Option String
deriving DecidableEq, Repr

/-- The error thrown by `searchNearest` when dimensions differ and
downsampling is disallowed. -/
inductive SearchError where
  | dimensionMismatch (qlen dbDim : Nat)
deriving DecidableEq, Repr

/-- Which stage of `searchNearest` produced the outcome. -/
inductive SearchStage where
  | earlyEmpty
  | exactTitle
  | identTitle
  | typeTitle
  | noEmbedding
  | dimMismatch
  | vector
deriving DecidableEq, Repr

/-- The options object of `searchNearest`: `searchByTitle` is the result of
the strict comparison `opts.searchByTitle === true`, `allowDownsample` the
result of `opts.allowDownsample !== false` (absence is `true`). -/
structure SearchOpts where
  searchByTitle : Bool
  allowDownsample : Bool
deriving DecidableEq, Repr

/-- Environment of `searchNearest`: the store contents, and oracles for the
genuinely external effects (embedding provider, vector-distance query,
file reads, `Date.parse`) plus the environment variables it reads.
`vectorRows` models the vector SQL: given the query vector, the limit and
the optional `ILIKE` title filter it returns rows with their distances in
the store's distance order. -/
structure SearchEnv where
  store : List DocRow
  vectorRows : List ℚ → Nat → Option String → List (DocRow × ℚ)
  embed : String → Option (List ℚ)
  readFile : DocRow → Option String
  parseDate : String → Option Int
  ragToday : Option Int
  dbDim : Nat

/-- Postgres `trim`: strip space characters from both ends. -/
def sqlTrim (s : String) : String :=
  ⟨((s.toList.dropWhile (fun c => c = ' ')).reverse.dropWhile
    (fun c => c = ' ')).reverse⟩

/-- Model of `lower(regexp_replace(x, '[.\s]+', '', 'g'))`: drop every dot and
whitespace character, lowercase the rest. -/
def normIdKey (s : String) : List Char :=
  jsLowerL (s.toList.filter (fun c => !(c = '.' || c.isWhitespace)))

/-- The exact-title SQL of `searchNearest`:
`WHERE trim(m.title) = trim($1) LIMIT $2` over the store (a `NULL` title
matches nothing). -/
def exactRows (store : List DocRow) (v : String) (k : Nat) : List DocRow :=
  (store.filter (fun r =>
    match r.title with
    | some t => sqlTrim t == sqlTrim v
    | none => false)).take k

/-- The normalized-identifier SQL of `searchNearest`: equality of titles
after removing dots and whitespace, case-insensitively, `LIMIT $2`. -/
def idRows (store : List DocRow) (v : String) (k : Nat) : List DocRow :=
  (store.filter (fun r =>
    match r.title with
    | some t => normIdKey t == normIdKey v
    | none => false)).take k

/-- The type+evidence SQL of `searchNearest`:
`COALESCE(category,'') ILIKE $1 OR COALESCE(category,'') ILIKE '%'||$1||'%'`
and `COALESCE(filename,'') ILIKE $2`, `LIMIT $3`.  The type and evidence
strings produced by `extractTypeEvidence` contain no `%` or `_`, so `ILIKE`
is case-insensitive equality / containment. -/
def typeRows (store : List DocRow) (t ev : String) (k : Nat) : List DocRow :=
  (store.filter (fun r =>
    (jsEqCI (r.category.getD "") t || jsIncludesCI (r.category.getD "") t) &&
      jsEqCI (r.filename.getD "") ev)).take k

/-- Date-proximity sort key: `Math.abs(Date.parse(String(row.date)) - ragToday)`,
`none` meaning `Infinity` (unparseable or `NULL` date, `String(null)` being
`"null"`). -/
def dateDiffKey (parseDate : String → Option Int) (t0 : Int)
    (d : Option String) : Option Nat :=
  match d with
  | none => none
  | some s =>
    match parseDate s with
    | none => none
    | some ts => some (ts - t0).natAbs

/-- Comparator `diffA - diffB` as a boolean `le` (is the comparator value
at most zero?); `none` is `Infinity`, and `Infinity === Infinity` makes two
absent keys compare as a tie. -/
def optDiffLe (a b : Option Nat) : Bool :=
  match a, b with
  | _, none => true
  | none, some _ => false
  | some x, some y => x ≤ y

/-- The `RAG_TODAY` proximity re-sort applied to every row set of the title
cascade (a stable sort by absolute date distance). -/
def sortRagRows (env : SearchEnv) (rows : List DocRow) : List DocRow :=
  match env.ragToday with
  | none => rows
  | some t0 =>
    jsSortBy (fun a b =>
      optDiffLe (dateDiffKey env.parseDate t0 a.date)
        (dateDiffKey env.parseDate t0 b.date)) rows

/-- Comparator of the vector-path re-sort: date proximity first, vector
distance (`dist || 0`, the identity on the stored distances) as the
tie-break. -/
def vecRowLe (parseDate : String → Option Int) (t0 : Int)
    (a b : DocRow × ℚ) : Bool :=
  match dateDiffKey parseDate t0 a.1.date, dateDiffKey parseDate t0 b.1.date with
  | some x, some y => if x = y then decide (a.2 ≤ b.2) else decide (x ≤ y)
  | some _, none => true
  | none, some _ => false
  | none, none => decide (a.2 ≤ b.2)

/-- The `RAG_TODAY` proximity re-sort of the vector path. -/
def sortRagVec (env : SearchEnv) (rows : List (DocRow × ℚ)) :
    List (DocRow × ℚ) :=
  match env.ragToday with
  | none => rows
  | some t0 => jsSortBy (vecRowLe env.parseDate t0) rows

/-- Build a result candidate from a row: copy the identifying fields,
`date: r.date || null` (an empty date string is falsy), and read the body
only when `r.filename` is truthy; a failed read (oracle `none`) leaves the
text `null`. -/
def candOf (env : SearchEnv) (r : DocRow) : Candidate :=
  ⟨r.uuid, r.filename, r.relative_path,
    (match r.date with
     | some s => if s = "" then none else some s
     | none => none),
    (match r.filename with
     | some fn => if fn = "" then none else env.readFile r
     | none => none)⟩

/-- Result of the `searchByTitle` block: either a cascade stage hit with
its rows, or a miss carrying the `ILIKE` title filter for the vector
query. -/
inductive TitleResult where
  | hit (stage : SearchStage) (rows : List DocRow)
  | miss (filter : Option String)
deriving DecidableEq, Repr

/-- Find the first variant whose row set is non-empty (the source loops
over the variants and returns on the first non-empty result). -/
def firstNonempty (f : String → List DocRow) : List String →
    Option (String × List DocRow)
  | [] => none
  | v :: rest => if (f v).isEmpty then firstNonempty f rest else some (v, f v)

/-- The title-lookup cascade of `searchNearest` (`src/unnamed/part_006`),
applied to the trimmed query `raw`: exact match over all variants, then
normalized-identifier match over all variants, then the type+evidence
lookup, each returning on the first non-empty row set; otherwise fall
through with the best variant as `ILIKE` filter
(`chooseBestTitleVariant(variants) || searchByTitleRaw`, the `|| raw`
firing when the chosen variant is empty or absent). -/
def titleLookup (env : SearchEnv) (raw : String) (k : Nat) : TitleResult :=
  let variants := generateTitleVariants raw
  match firstNonempty (fun v => exactRows env.store v k) variants with
  | some (_, rows) => .hit .exactTitle rows
  | none =>
    match firstNonempty (fun v => idRows env.store v k) variants with
    | some (_, rows) => .hit .identTitle rows
    | none =>
      let fallThrough : TitleResult :=
        .miss (some
          (match chooseBestTitleVariant (variants.map String.toList) with
           | some b => if b.isEmpty then raw else ⟨b⟩
           | none => raw))
      match extractTypeEvidence raw with
      | some (t, ev) =>
        let rows := typeRows env.store t ev k
        if rows.isEmpty then fallThrough else .hit .typeTitle rows
      | none => fallThrough

/-- The `searchByTitleRaw` guard of `searchNearest`: the title block runs
only when `opts.searchByTitle === true` and the trimmed query is truthy. -/
def titleOutcome (env : SearchEnv) (query : String) (k : Nat)
    (searchByTitle : Bool) : TitleResult :=
  if searchByTitle ∧ jsTrim query ≠ "" then titleLookup env (jsTrim query) k
  else .miss none

/-- The instrumented outcome of `searchNearest`: the returned value or the
thrown error, which stage produced it, whether the embedding provider was
called, and the vector passed to the vector query (`none` when the vector
query never ran). -/
structure SearchOutcome where
  res : Except SearchError (List Candidate)
  stage : SearchStage
  embedCalled : Bool
  queryVector : Option (List ℚ)
deriving Repr

/-- The vector phase of `searchNearest`: compute the embedding (only now),
return `[]` on a null or empty embedding, reconcile dimensions
(`DOWNSAMPLE_DIM` falsy, that is `0`, disables the check; a mismatch with
downsampling disallowed throws), run the vector query with the optional
title filter, re-sort by `RAG_TODAY` proximity, and load the bodies of the
resulting rows. -/
def vectorPhase (env : SearchEnv) (query : String) (k : Nat)
    (allowDownsample : Bool) (filt : Option String) : SearchOutcome :=
  match env.embed query with
  | none => ⟨.ok [], .noEmbedding, true, none⟩
  | some emb =>
    if emb.isEmpty then ⟨.ok [], .noEmbedding, true, none⟩
    else
      if env.dbDim ≠ 0 ∧ emb.length ≠ env.dbDim then
        if allowDownsample then
          let e2 := downsampleEmbedding emb env.dbDim
          ⟨.ok (((sortRagVec env (env.vectorRows e2 k filt)).map Prod.fst).map
            (candOf env)), .vector, true, some e2⟩
        else
          ⟨.error (.dimensionMismatch emb.length env.dbDim), .dimMismatch,
            true, none⟩
      else
        ⟨.ok (((sortRagVec env (env.vectorRows emb k filt)).map Prod.fst).map
          (candOf env)), .vector, true, some emb⟩

/-- Model of `searchNearest` of `src/unnamed/part_006`: empty-query guard
(`!query || query === ''`, which a whitespace-only query passes), then the
title cascade when requested, then the lazy vector phase. -/
def searchNearest (env : SearchEnv) (query : String) (k : Nat)
    (opts : SearchOpts) : SearchOutcome :=
  if query = "" then ⟨.ok [], .earlyEmpty, false, none⟩
  else
    match titleOutcome env query k opts.searchByTitle with
    | .hit st rows =>
      ⟨.ok ((sortRagRows env rows).map (candOf env)), st, false, none⟩
    | .miss filt => vectorPhase env query k opts.allowDownsample filt

/-- JavaScript template interpolation of a nullable string:
`${null}` prints `"null"`. -/
def jsShow (o : Option String) : String :=
  o.getD "null"

/-- JavaScript `s || d` for a string: the default fires on `null`,
`undefined` and the empty string. -/
def jsStrOr (o : Option String) (d : String) : String :=
  match o with
  | some s => if s = "" then d else s
  | none => d

/-- JavaScript truthiness of a nullable string as an `Option`: `none` for
`null`/`undefined`/empty. -/
def jsStrOpt (o : Option String) : Option String :=
  match o with
  | some s => if s = "" then none else some s
  | none => none

/-- Model of `src/context.mjs`, `extractSource`: the source token
`FILE:<uuid>/<filename>.txt`. -/
def extractSource (uuid : String) (filename : Option String) : String :=
  "FILE:" ++ uuid ++ "/" ++ jsShow filename ++ ".txt"

/-- Join a list of strings with a separator (JavaScript `Array.join`). -/
def joinSep (sep : String) : List String → String
  | [] => ""
  | h :: t => t.foldl (fun acc s => acc ++ sep ++ s) h

/-- Oracles of the result-assembly stages: `extractLawName` stands for the
regex cascade of `src/search/lawNameExtractors.mjs` (its output decorates
the items and is unconstrained by the claims); `useLLM` is the
`USE_LLM_SNIPPET` flag governing `answerQuestion`'s default-flag extractor
calls, and `llmSnip text query` the outcome of the external
`extractRelevantSnippetWithLLM` call for them. -/
structure AssembleEnv where
  extractLawName : String → String
  useLLM : Bool
  llmSnip : String → String → Option String

/-- One item assembled by `fetchRelevantMatches`
(`src/unnamed/part_019`).  The source also stores `id: match.id || null`
and a score `match._score ?? match.score`; the match records produced by
`searchNearest` carry neither field, so both are `null` and are omitted
here. -/
structure FRMItem (K : Type) where
  lawName : String
  snippet : String
  fileUrl : String
  originalIndex : Nat
  originalMatch : ScoredMatch K

/-- The snippet a scored match resolves to in `fetchRelevantMatches`:
`formatSnippet(await extractRelevantSnippet(match.text || '', query, false))`
(the LLM path is explicitly disabled by the third argument). -/
def frmResolved (K : Type) (query : String) (m : ScoredMatch K) : String :=
  formatSnippet (extractRelevantSnippet false none (m.base.text.getD "") query)

/-- The item/summary assembly loop of `fetchRelevantMatches`: walk the
scored matches in order; a match whose resolved snippet is the sentinel is
skipped before its law name, source token or summary is built; every other
match contributes one item. -/
def frmItems (K : Type) (env : AssembleEnv) (query : String)
    (scored : List (ScoredMatch K)) : List (FRMItem K) :=
  scored.enum.filterMap (fun p =>
    let m := p.2
    let snippet := frmResolved K query m
    if snippet = UNKNOWN_PHRASE then none
    else some ⟨formatLawName (env.extractLawName (m.base.text.getD "")),
      snippet, extractSource m.base.uuid m.base.filename, p.1, m⟩)

/-- The markdown summary built for one item. -/
def frmSummary (K : Type) (it : FRMItem K) : String :=
  "### " ++ it.lawName ++ "\n\n\"" ++ it.snippet ++ "\"\n\n[View Document](" ++
    it.fileUrl ++ ")"

/-- The result shape of `fetchRelevantMatches`: the surfaced matches and
the formatted answer. -/
structure FRMResult (K : Type) where
  matchesOut : List (ScoredMatch K)
  answer : String
deriving Repr

/-- The tail of `fetchRelevantMatches` below the `scoreMatches` call
(`src/unnamed/part_019`, lines 189-306): assemble items and summaries with
sentinel-bearing matches dropped; with no items, answer
`'No relevant documents found.'` with no matches; otherwise keep the items
whose index the LLM recommendation selected (all of them when it selected
none).  `recommend` models `mapParsedToIndexes` applied to the parsed LLM
interpretation (a set of item indexes in insertion order) and `brief` the
interpretation's brief summary (empty string falsy). -/
def fetchRelevantMatchesTail (K : Type) (env : AssembleEnv)
    (recommend : List (FRMItem K) → List Nat) (brief : String)
    (query : String) (scored : List (ScoredMatch K)) : FRMResult K :=
  let items := frmItems K env query scored
  let summaries := items.map (frmSummary K)
  if items.isEmpty then ⟨[], "No relevant documents found."⟩
  else
    let keptIdx := recommend items
    let kept := if keptIdx.isEmpty then items
      else (items.enum.filter (fun p => keptIdx.contains p.1)).map Prod.snd
    let keptSummaries := if keptIdx.isEmpty then summaries
      else ((summaries.enum.filter (fun p => keptIdx.contains p.1)).map Prod.snd)
    ⟨kept.map (fun it => it.originalMatch),
      (if brief ≠ "" then "## Brief Summary\n\n" ++ brief ++ "\n\n" else "") ++
        joinSep "\n\n---\n\n" keptSummaries⟩

/-- One entry of the `sources` array of `answerQuestion`
(`src/unnamed/part_009`). -/
structure QnASource where
  fileUrl : String
  lawName : String
  uuid : String
  filename : Option String
deriving DecidableEq, Repr

/-- The snippet a candidate resolves to in `answerQuestion`:
`formatSnippet(await extractRelevantSnippet(m.text || '', question))`, the
LLM flag left at its environment default. -/
def qnaResolved (env : AssembleEnv) (question : String) (m : Candidate) : String :=
  formatSnippet (extractRelevantSnippet env.useLLM
    (env.llmSnip (m.text.getD "") question) (m.text.getD "") question)

/-- The per-match source/context loop of `answerQuestion`
(`src/unnamed/part_009`, lines 80-101): a candidate whose resolved snippet
is the sentinel is skipped before its source token is pushed; every other
candidate contributes one source entry. -/
def qnaSources (env : AssembleEnv) (question : String)
    (ms : List Candidate) : List QnASource :=
  ms.filterMap (fun m =>
    let snippet := qnaResolved env question m
    let lawName := jsStrOr (some (formatLawName (env.extractLawName (m.text.getD ""))))
      "Document"
    if snippet = UNKNOWN_PHRASE then none
    else some ⟨extractSource m.uuid m.filename, lawName, m.uuid, m.filename⟩)

/-- The context chunks accumulated alongside `qnaSources` (one per
surfaced candidate). -/
def qnaContextChunks (env : AssembleEnv) (question : String)
    (ms : List Candidate) : List String :=
  ms.filterMap (fun m =>
    let snippet := qnaResolved env question m
    if snippet = UNKNOWN_PHRASE then none
    else some (extractSource m.uuid m.filename ++ "\n\n" ++ snippet ++ "\n"))

/-- Model of `src/src/perspectiveAnalysis/searchAggregator.mjs`,
`filterBarExamNotes` with the `RAG_CONSTITUTION` environment value passed
explicitly (`undefined` interpolates as the text `undefined`): drop hits
with at most two lines of text, bar-exam material, and
constitution documents of the wrong constitution. -/
def filterBarExamNotes (constitution : Option String)
    (hits : List Candidate) : List Candidate :=
  hits.filter (fun hit =>
    let filename := jsLowerL (hit.filename.getD "").toList
    let relativePath := jsLowerL (hit.relative_path.getD "").toList
    let lineCount := (splitOnPred (fun c => c = '\n') (hit.text.getD "").toList).length
    let consStr := ("cons" ++ constitution.getD "undefined").toList
    if lineCount ≤ 2 then false
    else if listIncludes filename "bar".toList ||
        listIncludes relativePath "bar".toList then false
    else if listIncludes filename "const".toList ||
        listIncludes relativePath "const".toList then
      listIncludes filename consStr || listIncludes relativePath consStr
    else true)

/-- One citation regex of `extractCitations`: the ordered prefix
alternatives and the alternatives for the `No` group (`["no.", "no"]` when
the group is mandatory as in the `G.R.` pattern, with the empty fallback
appended when it is optional). -/
structure CitPat where
  prefixes : List String
  noAlts : List String

/-- The ordered pattern table of `extractCitations`. -/
def citPats : List CitPat :=
  [⟨["R.A.", "RA", "Republic Act"], ["no.", "no", ""]⟩,
   ⟨["P.D.", "PD", "Presidential Decree"], ["no.", "no", ""]⟩,
   ⟨["E.O.", "EO", "Executive Order"], ["no.", "no", ""]⟩,
   ⟨["B.P.", "BP", "Batas Pambansa"], ["no.", "no", ""]⟩,
   ⟨["G.R."], ["no.", "no"]⟩,
   ⟨["A.O.", "AO", "Administrative Order"], ["no.", "no", ""]⟩,
   ⟨["D.O.", "DO", "Department Order"], ["no.", "no", ""]⟩]

/-- Try one citation pattern at the head of `cs`; returns the length of
`match[0]`.  Alternatives are tried in regex priority order; the greedy
`\s*` runs and the digit group are deterministic. -/
def citTryAt (p : CitPat) (cs : List Char) : Option Nat :=
  p.prefixes.findSome? (fun pre =>
    if listMatchAtCI cs pre.toList 0 then
      let afterP := cs.drop pre.toList.length
      let w1 := afterP.takeWhile (fun c => c.isWhitespace)
      let afterW1 := afterP.drop w1.length
      p.noAlts.findSome? (fun na =>
        if listMatchAtCI afterW1 na.toList 0 then
          let afterNo := afterW1.drop na.toList.length
          let w2 := afterNo.takeWhile (fun c => c.isWhitespace)
          let digits := (afterNo.drop w2.length).takeWhile Char.isDigit
          if digits.isEmpty then none
          else some (pre.toList.length + w1.length + na.toList.length +
            w2.length + digits.length)
        else none)
    else none)

/-- Fuel-indexed global scan of one citation pattern (`matchAll`):
non-overlapping matches left to right, each reported as its trimmed
`match[0]`. -/
def citScanAux (p : CitPat) : Nat → List Char → List (List Char)
  | 0, _ => []
  | _ + 1, [] => []
  | fuel + 1, c :: rest =>
    match citTryAt p (c :: rest) with
    | some n =>
      jsTrimL ((c :: rest).take n) :: citScanAux p fuel ((c :: rest).drop n)
    | none => citScanAux p fuel rest

/-- All matches of one citation pattern. -/
def citScan (p : CitPat) (cs : List Char) : List (List Char) :=
  citScanAux p cs.length cs

/-- Ordered `Set` insertion for strings. -/
def addStr (l : List String) (v : String) : List String :=
  if l.contains v then l else l ++ [v]

/-- Model of `src/src/perspectiveAnalysis/searchAggregator.mjs`, `extractCitations`:
run every pattern over the text in table order, collecting trimmed
`match[0]` values into an insertion-ordered set. -/
def extractCitations (text : String) : List String :=
  if text = "" then []
  else
    citPats.foldl (fun acc p =>
      (citScan p text.toList).foldl (fun a m => addStr a (⟨m⟩ : String)) acc) []

/-- One entry of `plan.searches` in `researcherExecutePlan`
(`src/src/perspectiveAnalysis/searchAggregator.mjs`).  `k` is `some n`
when `Number.isInteger(s.k)` holds (the plans built by the aggregator use
small non-negative integers). -/
structure RSearch where
  query : Option String
  k : Option Nat
  perspective : Option String

/-- A research plan: `requestedPerspectives` is `none` when the property
is absent/null (the default then applies; an empty array is truthy and
stays empty). -/
structure RPlan where
  requestedPerspectives : Option (List String)
  searches : List RSearch

/-- Environment of the researcher: `search q k byTitle` models the awaited
`searchNearest(q, k, {searchByTitle})` call (the engine itself is modelled
separately by `searchNearest` above; the aggregator's claims quantify over
its results), and `constitution` is `RAG_CONSTITUTION`. -/
structure ResearchEnv where
  search : String → Nat → Bool → List Candidate
  constitution : Option String

/-- A value stored in the `seen` map of `researcherExecutePlan`: either a
reduced direct hit (`{...h, snippet, text: snippet, full_text_truncated}`)
or a raw citation hit (`{...h, foundViaCitation}`). -/
structure StoredHit where
  uuid : String
  filename : Option String
  relative_path : Option String
  date : Option String
  text : Option String
  snippet : Option String
  full_text_truncated : Option Bool
  foundViaCitation : Option String
deriving DecidableEq, Repr

/-- Process one direct hit of a research search: extract the citations
happen separately; build the snippet (heuristic extractor then
`formatSnippet`) and drop the hit entirely when it resolves to the
sentinel, otherwise reduce it.  The `catch` fallback path cannot fire in
this pure model. -/
def researcherProcessHit (q : String) (h : Candidate) : Option StoredHit :=
  let originalText := h.text.getD ""
  let snippet := formatSnippet (extractRelevantSnippet false none originalText q)
  if snippet = UNKNOWN_PHRASE then none
  else some ⟨h.uuid, h.filename, h.relative_path, h.date, some snippet,
    some snippet, some (decide (snippet.toList.length < originalText.toList.length)),
    none⟩

/-- A citation hit as stored: the candidate spread plus the citation that
found it. -/
def citationHitOf (c : String) (h : Candidate) : StoredHit :=
  ⟨h.uuid, h.filename, h.relative_path, h.date, h.text, none, none, some c⟩

/-- The perspective filter of `researcherExecutePlan`:
`requestedPerspectives.includes(s.perspective || 'general') ||
(s.perspective || 'general') === 'general'`. -/
def perspectiveOk (req : List String) (s : RSearch) : Bool :=
  req.contains (jsStrOr s.perspective "general") ||
    jsStrOr s.perspective "general" == "general"

/-- The searches `researcherExecutePlan` actually runs: perspective-filtered,
with query-less (or empty-query) entries skipped, each with its query and
its `k` (default 3). -/
def researcherRuns (plan : RPlan) : List (String × Nat) :=
  ((plan.searches.filter
      (perspectiveOk (plan.requestedPerspectives.getD
        ["prosecutor", "defense", "judge"]))).filterMap (fun s =>
    (jsStrOpt s.query).map (fun q => (q, s.k.getD 3))))

/-- The direct-phase stream of `seen`-insertion attempts: for each run, the
bar-exam-filtered hits that survive snippet processing, in order. -/
def researcherDirectStream (env : ResearchEnv) (plan : RPlan) : List StoredHit :=
  (researcherRuns plan).foldl (fun acc r =>
    acc ++ ((filterBarExamNotes env.constitution (env.search r.1 r.2 false)).filterMap
      (researcherProcessHit r.1))) []

/-- The `allCitations` set: citations of every bar-exam-filtered direct hit
(collected before the snippet check, so sentinel-dropped hits contribute
too), in insertion order. -/
def researcherCitations (env : ResearchEnv) (plan : RPlan) : List String :=
  (researcherRuns plan).foldl (fun acc r =>
    (filterBarExamNotes env.constitution (env.search r.1 r.2 false)).foldl
      (fun a h => (extractCitations (h.text.getD "")).foldl addStr a) acc) []

/-- Model of `searchCitations(citations, 2)`: for the first five citations, the
bar-exam-filtered title-search hits tagged with their citation (a failed
search contributes nothing; the pure oracle never fails). -/
def researcherCitationStream (env : ResearchEnv) (plan : RPlan) : List StoredHit :=
  ((researcherCitations env plan).take 5).foldl (fun acc c =>
    acc ++ ((filterBarExamNotes env.constitution (env.search c 2 true)).map
      (citationHitOf c))) []

/-- The full stream of `seen`-insertion attempts of
`researcherExecutePlan`: the direct phase followed by the citation
follow-up phase (empty when no citations were found, as in the source's
`allCitations.size > 0` guard). -/
def researcherStream (env : ResearchEnv) (plan : RPlan) : List StoredHit :=
  researcherDirectStream env plan ++ researcherCitationStream env plan

/-- One `seen`-map insertion attempt: a hit whose `uuid` is already present
is dropped, otherwise it is appended (JavaScript `Map` preserves insertion
order). -/
def seenAdd (seen : List StoredHit) (h : StoredHit) : List StoredHit :=
  if seen.any (fun x => x.uuid == h.uuid) then seen else seen ++ [h]

/-- Model of `src/src/perspectiveAnalysis/searchAggregator.mjs`,
`researcherExecutePlan`: run the plan's searches, dedup every surfaced hit
by `uuid` through the `seen` map, and return the map's values in insertion
order. -/
def researcherExecutePlan (env : ResearchEnv) (plan : RPlan) : List StoredHit :=
  (researcherStream env plan).foldl seenAdd []

/-!
Sanity checks: concrete evaluations of the embedded definitions.
-/

example : downsampleEmbedding [1, 2, 3, 4] 2 = [3/2, 7/2] := by
  norm_num [downsampleEmbedding, List.range_succ]
example : downsampleEmbedding [1, 2, 3] 3 = [1, 2, 3] := by
  norm_num [downsampleEmbedding]
example : downsampleEmbedding [1, 2, 3] 0 = [1, 2, 3] := by
  norm_num [downsampleEmbedding]
example : kwWords "water act" = [['w','a','t','e','r'], ['a','c','t']] := by decide
example : kwHits "the clean water act" "water act" = 2 := by decide
example : jsIncludes "abc" "" = true := by decide
example : jsIncludesCI "aBc" "bc" = true := by decide
example : jsTrim "  ab c  " = "ab c" := by decide
example : jsSortBy (fun a b => a ≤ b) [3, 1, 2] = [1, 2, 3] := by decide
example : splitSentences "abc. def! x" = [['a','b','c','.'], [' ','d','e','f','!']] := by decide
example : splitSentences ".." = [] := by decide
example : splitSentences "a..b." = [['a','.','.'], ['b','.']] := by decide
example : splitSentences "no terminator here" = [] := by decide
example : extractRelevantSnippet false none "alpha beta. gamma." "beta" = "alpha beta." := by decide
example : extractRelevantSnippet false none "alpha beta. gamma." "delta" = UNKNOWN_PHRASE := by decide
example : extractRelevantSnippet false none "alpha beta" "beta" = UNKNOWN_PHRASE := by decide
example : formatSnippet UNKNOWN_PHRASE = UNKNOWN_PHRASE := by decide
example : formatSnippet "  a.  ...b \" c" = "a.b\"c" := by decide
example : generateTitleVariants "RA 1061" =
    ["RA 1061", "Republic Act No. 1061", "Republic Act 1061",
     "Republic Act No 1061", "Republic Act No.1061"] := by decide
example : extractTypeEvidence "G.R. No. 100264-81" = some ("G.R.", "100264-81") := by decide
example : extractTypeEvidence "negligence in maritime contracts" =
    some ("negligence in maritime", "contracts") := by decide
example : chooseBestTitleVariant ((generateTitleVariants "RA 1061").map String.toList) =
    some ("Republic Act No. 1061".toList) := by decide
example : extractCitations "Under RA 9262 and R.A. No. 9262, see G.R. No. 123." =
    ["RA 9262", "R.A. No. 9262", "G.R. No. 123"] := by decide
example : extractCitations "GRAB 5 has no citation... except RA 5" =
    ["RA 5"] := by decide
example : filterBarExamNotes (some "1987")
    [⟨"u1", some "bar_notes", none, none, some "a\nb\nc"⟩,
     ⟨"u2", some "ra_1061", none, none, some "a\nb\nc"⟩,
     ⟨"u3", some "constitution1935", none, none, some "a\nb\nc"⟩,
     ⟨"u4", some "short", none, none, some "a\nb"⟩] =
    [⟨"u2", some "ra_1061", none, none, some "a\nb\nc"⟩] := by decide

lemma stableInsert_perm (le : α → α → Bool) (a : α) (l : List α) :
    (stableInsert le a l).Perm (a :: l) := by
  induction l with
  | nil => simp [stableInsert]
  | cons b t ih =>
    by_cases h : le b a = true
    · simp only [stableInsert, h, if_true]
      exact ((ih.cons b).trans (List.Perm.swap a b t))
    · simp [stableInsert, h]

lemma jsSortBy_perm (le : α → α → Bool) (l : List α) :
    (jsSortBy le l).Perm l := by
  induction l with
  | nil => simp [jsSortBy]
  | cons a t ih =>
    have : jsSortBy le (a :: t) = stableInsert le a (jsSortBy le t) := rfl
    rw [this]
    exact (stableInsert_perm le a (jsSortBy le t)).trans (ih.cons a)

lemma mem_stableInsert (le : α → α → Bool) (a x : α) (l : List α) :
    x ∈ stableInsert le a l ↔ x = a ∨ x ∈ l := by
  constructor
  · intro h
    have := (stableInsert_perm le a l).mem_iff.mp h
    simpa using this
  · intro h
    refine (stableInsert_perm le a l).mem_iff.mpr ?_
    simpa using h

lemma pairwise_stableInsert (le : α → α → Bool)
    (htot : ∀ a b, le a b = true ∨ le b a = true)
    (htrans : ∀ a b c, le a b = true → le b c = true → le a c = true)
    (a : α) (l : List α) (h : l.Pairwise (fun x y => le x y = true)) :
    (stableInsert le a l).Pairwise (fun x y => le x y = true) := by
  induction l with
  | nil => simp [stableInsert]
  | cons b t ih =>
    rcases List.pairwise_cons.mp h with ⟨hb, ht⟩
    by_cases hba : le b a = true
    · simp only [stableInsert, hba, if_true]
      refine List.pairwise_cons.mpr ⟨?_, ih ht⟩
      intro x hx
      rcases (mem_stableInsert le a x t).mp hx with rfl | hx
      · exact hba
      · exact hb x hx
    · simp only [stableInsert, hba, if_false]
      refine List.pairwise_cons.mpr ⟨?_, h⟩
      intro x hx
      rcases hx with _ | hx
      · rcases htot a b with hab | hba2
        · exact hab
        · exact absurd hba2 hba
      · rename_i hx
        rcases htot a b with hab | hba2
        · exact htrans a b x hab (hb x hx)
        · exact absurd hba2 hba
    
lemma jsSortBy_pairwise (le : α → α → Bool)
    (htot : ∀ a b, le a b = true ∨ le b a = true)
    (htrans : ∀ a b c, le a b = true → le b c = true → le a c = true)
    (l : List α) :
    (jsSortBy le l).Pairwise (fun x y => le x y = true) := by
  induction l with
  | nil => simp [jsSortBy]
  | cons a t ih =>
    exact pairwise_stableInsert le htot htrans a (jsSortBy le t) ih

lemma head?_pairwise_le (le : α → α → Bool) (l : List α) (t : α)
    (hh : l.head? = some t) (hp : l.Pairwise (fun x y => le x y = true)) :
    ∀ x ∈ l, x = t ∨ le t x = true := by
  cases l with
  | nil => simp at hh
  | cons a r =>
    cases hh
    rcases List.pairwise_cons.mp hp with ⟨ha, _⟩
    intro x hx
    rcases hx with _ | hx
    · exact Or.inl rfl
    · exact Or.inr (ha x (by assumption))

lemma firstNonempty_of_exists (f : String → List DocRow) (vs : List String)
    (h : ∃ v ∈ vs, f v ≠ []) :
    ∃ v ∈ vs, firstNonempty f vs = some (v, f v) ∧ f v ≠ [] := by
  induction vs with
  | nil => simp at h
  | cons v rest ih =>
    by_cases hv : (f v).isEmpty
    · have hfv : f v = [] := List.isEmpty_iff.mp hv
      rcases h with ⟨w, hw, hne⟩
      rcases hw with _ | hw
      · exact absurd hfv hne
      · rcases ih ⟨w, by assumption, hne⟩ with ⟨u, hu, heq, hune⟩
        refine ⟨u, List.mem_cons_of_mem v hu, ?_, hune⟩
        simpa [firstNonempty, hv] using heq
    · refine ⟨v, List.mem_cons_self v rest, ?_, ?_⟩
      · simp [firstNonempty, hv]
      · intro hfv
        simp [hfv] at hv

lemma seenFold_append (stream : List StoredHit) :
    ∀ acc, ∃ l2, stream.foldl seenAdd acc = acc ++ l2 := by
  induction stream with
  | nil => intro acc; exact ⟨[], by simp⟩
  | cons h t ih =>
    intro acc
    by_cases hm : acc.any (fun x => x.uuid == h.uuid)
    · rcases ih acc with ⟨l2, hl2⟩
      exact ⟨l2, by simpa [seenAdd, hm] using hl2⟩
    · rcases ih (acc ++ [h]) with ⟨l2, hl2⟩
      refine ⟨[h] ++ l2, ?_⟩
      simp only [List.foldl_cons, seenAdd, hm, if_false]
      simpa using hl2

lemma seenFold_mem (stream : List StoredHit) :
    ∀ acc, ∀ x ∈ stream.foldl seenAdd acc, x ∈ acc ∨ x ∈ stream := by
  induction stream with
  | nil => intro acc x hx; exact Or.inl hx
  | cons h t ih =>
    intro acc x hx
    simp only [List.foldl_cons, seenAdd] at hx
    by_cases hm : acc.any (fun y => y.uuid == h.uuid)
    · rw [if_pos hm] at hx
      rcases ih acc x hx with hl | hr
      · exact Or.inl hl
      · exact Or.inr (List.mem_cons_of_mem h hr)
    · rw [if_neg hm] at hx
      rcases ih (acc ++ [h]) x hx with hl | hr
      · rcases List.mem_append.mp hl with hl2 | hl2
        · exact Or.inl hl2
        · simp at hl2
          exact Or.inr (by simp [hl2])
      · exact Or.inr (List.mem_cons_of_mem h hr)

lemma seenFold_keys_nodup (stream : List StoredHit) :
    ∀ acc, (acc.map (fun x => x.uuid)).Nodup →
      ((stream.foldl seenAdd acc).map (fun x => x.uuid)).Nodup := by
  induction stream with
  | nil => intro acc h; exact h
  | cons h t ih =>
    intro acc hacc
    simp only [List.foldl_cons, seenAdd]
    by_cases hm : acc.any (fun y => y.uuid == h.uuid)
    · rw [if_pos hm]; exact ih acc hacc
    · rw [if_neg hm]
      refine ih (acc ++ [h]) ?_
      rw [List.map_append, List.map_singleton]
      refine List.Nodup.append hacc (List.nodup_singleton _) ?_
      intro u hu hu2
      simp only [List.mem_singleton] at hu2
      subst hu2
      rcases List.mem_map.mp hu with ⟨y, hy, hyu⟩
      have : acc.any (fun z => z.uuid == h.uuid) = true :=
        List.any_eq_true.mpr ⟨y, hy, by simp [hyu]⟩
      exact hm this

lemma seenFold_find (stream : List StoredHit) :
    ∀ acc, ∀ x ∈ stream.foldl seenAdd acc,
      x ∈ acc ∨ (x.uuid ∉ acc.map (fun y => y.uuid) ∧
        stream.find? (fun h => h.uuid == x.uuid) = some x) := by
  induction stream with
  | nil => intro acc x hx; exact Or.inl hx
  | cons h t ih =>
    intro acc x hx
    simp only [List.foldl_cons, seenAdd] at hx
    by_cases hm : acc.any (fun y => y.uuid == h.uuid)
    · rw [if_pos hm] at hx
      rcases ih acc x hx with hl | ⟨hnk, hfind⟩
      · exact Or.inl hl
      · refine Or.inr ⟨hnk, ?_⟩
        have hne : (h.uuid == x.uuid) = false := by
          by_contra hcon
          have hx2 : h.uuid = x.uuid := by
            have := Bool.not_eq_false _ |>.mp hcon
            exact beq_iff_eq.mp this
          rcases List.any_eq_true.mp hm with ⟨y, hy, hyu⟩
          have : y.uuid = h.uuid := beq_iff_eq.mp hyu
          exact hnk (List.mem_map.mpr ⟨y, hy, by rw [this, hx2]⟩)
        rw [List.find?_cons, hne]
        exact hfind
    · rw [if_neg hm] at hx
      rcases ih (acc ++ [h]) x hx with hl | ⟨hnk, hfind⟩
      · rcases List.mem_append.mp hl with hl2 | hl2
        · exact Or.inl hl2
        · simp only [List.mem_singleton] at hl2
          subst hl2
          refine Or.inr ⟨?_, ?_⟩
          · intro hk
            rcases List.mem_map.mp hk with ⟨y, hy, hyu⟩
            exact hm (List.any_eq_true.mpr ⟨y, hy, by simp [hyu]⟩)
          · rw [List.find?_cons, show (x.uuid == x.uuid) = true by simp]
      · rw [List.map_append, List.map_singleton] at hnk
        have hnacc : x.uuid ∉ acc.map (fun y => y.uuid) := fun hc =>
          hnk (List.mem_append.mpr (Or.inl hc))
        have hnh : x.uuid ≠ h.uuid := by
          intro hc
          exact hnk (List.mem_append.mpr (Or.inr (by simp [hc])))
        refine Or.inr ⟨hnacc, ?_⟩
        rw [List.find?_cons, show (h.uuid == x.uuid) = false by
          simpa using fun hc => hnh hc.symm]
        exact hfind

lemma seenFold_covers (stream : List StoredHit) :
    ∀ acc, ∀ h ∈ stream, ∃ x ∈ stream.foldl seenAdd acc, x.uuid = h.uuid := by
  induction stream with
  | nil => intro acc h hh; simp at hh
  | cons g t ih =>
    intro acc h hh
    simp only [List.foldl_cons, seenAdd]
    by_cases hm : acc.any (fun y => y.uuid == g.uuid)
    · rw [if_pos hm]
      rcases List.mem_cons.mp hh with rfl | hh2
      · rcases List.any_eq_true.mp hm with ⟨y, hy, hyu⟩
        rcases seenFold_append t acc with ⟨l2, hl2⟩
        refine ⟨y, ?_, beq_iff_eq.mp hyu⟩
        rw [hl2]
        exact List.mem_append.mpr (Or.inl hy)
      · exact ih acc h hh2
    · rw [if_neg hm]
      rcases List.mem_cons.mp hh with rfl | hh2
      · rcases seenFold_append t (acc ++ [h]) with ⟨l2, hl2⟩
        refine ⟨h, ?_, rfl⟩
        rw [hl2]
        exact List.mem_append.mpr
          (Or.inl (List.mem_append.mpr (Or.inr (by simp))))
      · exact ih (acc ++ [g]) h hh2

lemma scoreMatches_mem (K : Type) [LinearOrderedField K] (expF : K → K)
    (ms : List (SearchMatch K)) (q : String) (n : Nat) :
    ∀ sm ∈ scoreMatches K expF ms q n,
      (∃ m ∈ ms, sm = scoreOne K expF q m) ∧ (1/5 : K) < sm.relevanceScore := by
  intro sm hsm
  have h1 : sm ∈ jsSortBy (fun a b => decide (b.relevanceScore ≤ a.relevanceScore))
      ((ms.map (scoreOne K expF q)).filter
        (fun m => decide ((1/5 : K) < m.relevanceScore))) :=
    List.mem_of_mem_take hsm
  have h2 : sm ∈ (ms.map (scoreOne K expF q)).filter
      (fun m => decide ((1/5 : K) < m.relevanceScore)) :=
    (jsSortBy_perm _ _).mem_iff.mp h1
  rcases List.mem_filter.mp h2 with ⟨h3, h4⟩
  refine ⟨?_, of_decide_eq_true h4⟩
  rcases List.mem_map.mp h3 with ⟨m, hm, hsm2⟩
  exact ⟨m, hm, hsm2.symm⟩

lemma downsample_length (v : List ℚ) (d : Nat) (hd : 0 < d) (hlt : d < v.length) :
    (downsampleEmbedding v d).length = d := by
  have hcond : ¬(d = 0 ∨ v.length ≤ d) := by
    push_neg
    exact ⟨by omega, by omega⟩
  simp [downsampleEmbedding, hcond]

/-- The contiguous index block `floor(i*n/d) .. floor((i+1)*n/d)` of `v`,
as a slice (used to state the block-averaging claim). -/
def blockOf (v : List ℚ) (d i : Nat) : List ℚ :=
  (v.drop (i * v.length / d)).take ((i + 1) * v.length / d - i * v.length / d)

lemma block_start_lt_stop (n d i : Nat) (hd : 0 < d) (hlt : d < n) :
    i * n / d < (i + 1) * n / d := by
  have h1 : (i * n / d + 1) * d ≤ (i + 1) * n := by
    have h2 : (i * n / d) * d ≤ i * n := Nat.div_mul_le_self (i * n) d
    have h3 : d ≤ n := Nat.le_of_lt hlt
    have h4 : (i + 1) * n = i * n + n := by ring
    have h5 : (i * n / d + 1) * d = (i * n / d) * d + d := by ring
    omega
  have := (Nat.le_div_iff_mul_le hd).mpr h1
  omega

lemma block_stop_le (n d i : Nat) (hd : 0 < d) (hi : i < d) :
    (i + 1) * n / d ≤ n := by
  have h1 : (i + 1) * n ≤ d * n := Nat.mul_le_mul_right n (by omega)
  have h2 : (i + 1) * n / d ≤ d * n / d := Nat.div_le_div_right h1
  rwa [Nat.mul_div_cancel_left n hd] at h2

lemma range_map_getD_eq_slice (v : List ℚ) (start k : Nat)
    (h : start + k ≤ v.length) :
    (List.range k).map (fun j => v.getD (start + j) 0) =
      (v.drop start).take k := by
  apply List.ext_getElem
  · simp [List.length_take, List.length_drop]
    omega
  · intro i h1 h2
    have hik : i < k := by simpa using h1
    have hsi : start + i < v.length := by omega
    rw [List.getElem_map, List.getElem_range, List.getElem_take,
      List.getElem_drop]
    rw [List.getD_eq_getElem v 0 hsi]

/-- Claim C6: `downsampleEmbedding` returns its input unchanged when the
target dimension is falsy (`0`) or at least the vector's length; for
`0 < d < len v` it returns a vector of length exactly `d` whose `i`-th
entry is the arithmetic mean of `v` over the index block
`floor(i*len/d) .. floor((i+1)*len/d)`. -/
theorem claim_C6_reconcile (v : List ℚ) (d : Nat) :
    ((d = 0 ∨ v.length ≤ d) → downsampleEmbedding v d = v)
    ∧ (0 < d → d < v.length →
        (downsampleEmbedding v d).length = d ∧
        ∀ i, i < d →
          (downsampleEmbedding v d).getD i 0 =
            (blockOf v d i).sum / ((blockOf v d i).length : ℚ)) := by
  constructor
  · intro h
    simp [downsampleEmbedding, h]
  · intro hd hlt
    refine ⟨downsample_length v d hd hlt, ?_⟩
    intro i hi
    have hcond : ¬(d = 0 ∨ v.length ≤ d) := by push_neg; exact ⟨by omega, by omega⟩
    have hss := block_start_lt_stop v.length d i hd hlt
    have hsl := block_stop_le v.length d i hd hi
    have hmap : downsampleEmbedding v d = (List.range d).map (fun i =>
        let start := i * v.length / d
        let stop := (i + 1) * v.length / d
        if stop ≤ start then v.getD (min start (v.length - 1)) 0
        else (((List.range (stop - start)).map
                (fun j => v.getD (start + j) 0)).sum) /
          ((max 1 (stop - start) : Nat) : ℚ)) := by
      simp only [downsampleEmbedding, hcond, if_false]
    rw [hmap]
    have hlen : i < ((List.range d).map (fun i =>
        let start := i * v.length / d
        let stop := (i + 1) * v.length / d
        if stop ≤ start then v.getD (min start (v.length - 1)) 0
        else (((List.range (stop - start)).map
                (fun j => v.getD (start + j) 0)).sum) /
          ((max 1 (stop - start) : Nat) : ℚ))).length := by
      simpa using hi
    rw [List.getD_eq_getElem _ 0 hlen, List.getElem_map, List.getElem_range]
    have hns : ¬((i + 1) * v.length / d ≤ i * v.length / d) := by omega
    simp only [hns, if_false]
    have hmax : max 1 ((i + 1) * v.length / d - i * v.length / d) =
        (i + 1) * v.length / d - i * v.length / d := by omega
    rw [hmax]
    have hslice := range_map_getD_eq_slice v (i * v.length / d)
      ((i + 1) * v.length / d - i * v.length / d) (by omega)
    rw [hslice]
    have hlen2 : ((v.drop (i * v.length / d)).take
        ((i + 1) * v.length / d - i * v.length / d)).length =
        (i + 1) * v.length / d - i * v.length / d := by
      simp [List.length_take, List.length_drop]
      omega
    rw [blockOf, hlen2]

/-- Witness for claim C6 at `v = [1,2,3,4]`, `d = 2`. -/
theorem claim_C6_reconcile_witness :
    (downsampleEmbedding [1, 2, 3, 4] 2).length = 2 ∧
      downsampleEmbedding [1, 2, 3, 4] 4 = [1, 2, 3, 4] := by
  constructor
  · exact ((claim_C6_reconcile [1, 2, 3, 4] 2).2 (by decide) (by decide)).1
  · exact (claim_C6_reconcile [1, 2, 3, 4] 4).1 (by decide)

/-- A match with no `dist` field, as every result of `searchNearest`
actually is (neither the exact-title path nor the vector path copies
`dist` into its result objects). -/
def mC3 : SearchMatch ℝ := ⟨"doc1", some "f1", some "test.", none⟩

lemma kwm_test : keywordMatch ℝ "test." "test" = 1 := by
  have h1 : kwWords "test" = [['t', 'e', 's', 't']] := by decide
  have h2 : kwHits "test." "test" = 1 := by decide
  rw [keywordMatch, h1, h2]
  norm_num

lemma scoreOne_mC3 : scoreOne ℝ Real.exp "test" mC3 =
    ⟨mC3, Real.exp (-(2 : ℝ)), 1, Real.exp (-(2 : ℝ)) * (7/10) + 1 * (3/10)⟩ := by
  simp [scoreOne, distanceToSimilarity, jsNumOr, kwm_test, mC3]

lemma scoreMatches_singleton_pos (K : Type) [LinearOrderedField K]
    (expF : K → K) (q : String) (m : SearchMatch K) (n : Nat) (hn : 0 < n)
    (h : (1/5 : K) < (scoreOne K expF q m).relevanceScore) :
    scoreMatches K expF [m] q n = [scoreOne K expF q m] := by
  obtain ⟨k, rfl⟩ := Nat.exists_eq_succ_of_ne_zero (Nat.pos_iff_ne_zero.mp hn)
  unfold scoreMatches
  rw [List.map_singleton, List.filter_singleton, decide_eq_true h]
  simp [jsSortBy, stableInsert]

lemma relC3_pos : (1/5 : ℝ) < Real.exp (-(2 : ℝ)) * (7/10) + 1 * (3/10) := by
  nlinarith [Real.exp_pos (-(2 : ℝ))]

/-- Claim C3 (amended): for every match processed by `scoreMatches`, its
`semanticScore` equals `exp (-(dist || 2))`: the exponential of the negated
distance when the distance is present and nonzero, and `exp (-2)` when the
distance is absent or zero (so an exact-match result, which carries no
distance, scores `exp (-2)`, not `exp 0 = 1`); the score is positive, at
most `1` whenever the effective distance is nonnegative, and
`distanceToSimilarity` is strictly decreasing. -/
theorem claim_C3_semantic_score :
    (∀ (ms : List (SearchMatch ℝ)) (q : String) (n : Nat),
      ∀ sm ∈ scoreMatches ℝ Real.exp ms q n,
        sm.semanticScore = Real.exp (-(jsNumOr ℝ sm.base.dist 2)) ∧
        0 < sm.semanticScore ∧
        (0 ≤ jsNumOr ℝ sm.base.dist 2 → sm.semanticScore ≤ 1))
    ∧ ∀ d1 d2 : ℝ, d1 < d2 →
        distanceToSimilarity ℝ Real.exp d2 < distanceToSimilarity ℝ Real.exp d1 := by
  constructor
  · intro ms q n sm hsm
    rcases (scoreMatches_mem ℝ Real.exp ms q n sm hsm).1 with ⟨m, _, rfl⟩
    refine ⟨by simp [scoreOne, distanceToSimilarity], ?_, ?_⟩
    · simpa [scoreOne, distanceToSimilarity] using Real.exp_pos _
    · intro h0
      have h0' : 0 ≤ jsNumOr ℝ m.dist 2 := by simpa [scoreOne] using h0
      have hle : (-(jsNumOr ℝ m.dist 2)) ≤ 0 := neg_nonpos.mpr h0'
      simpa [scoreOne, distanceToSimilarity] using Real.exp_le_one_iff.mpr hle
  · intro d1 d2 h
    simpa [distanceToSimilarity] using Real.exp_lt_exp.mpr (neg_lt_neg h)

/-- Counterexample to claim C3 as stated: a match whose distance is absent
(the claim calls it definitionally zero with `semanticScore = exp 0 = 1`)
is scored `exp (-2) ≠ 1` by the code (`m.dist || 2`). -/
theorem claim_C3_counterexample :
    (scoreMatches ℝ Real.exp [mC3] "test" 5).map (fun sm => sm.semanticScore) =
      [Real.exp (-(2 : ℝ))]
    ∧ mC3.dist = none
    ∧ Real.exp (-(2 : ℝ)) ≠ 1 := by
  refine ⟨?_, rfl, ?_⟩
  · rw [scoreMatches_singleton_pos ℝ Real.exp "test" mC3 5 (by norm_num)
      (by rw [scoreOne_mC3]; exact relC3_pos), scoreOne_mC3]
    simp
  · have h : Real.exp (-(2 : ℝ)) < Real.exp 0 := Real.exp_lt_exp.mpr (by norm_num)
    rw [Real.exp_zero] at h
    exact ne_of_lt h

/-- Witness for claim C3 at the concrete match `mC3` and query `"test"`. -/
theorem claim_C3_semantic_score_witness :
    (scoreOne ℝ Real.exp "test" mC3).semanticScore =
      Real.exp (-(jsNumOr ℝ (scoreOne ℝ Real.exp "test" mC3).base.dist 2)) ∧
    0 < (scoreOne ℝ Real.exp "test" mC3).semanticScore ∧
    (0 ≤ jsNumOr ℝ (scoreOne ℝ Real.exp "test" mC3).base.dist 2 →
      (scoreOne ℝ Real.exp "test" mC3).semanticScore ≤ 1) := by
  refine claim_C3_semantic_score.1 [mC3] "test" 5 _ ?_
  rw [scoreMatches_singleton_pos ℝ Real.exp "test" mC3 5 (by norm_num)
    (by rw [scoreOne_mC3]; exact relC3_pos)]
  exact List.mem_singleton_self _

/-- Claim C4: the output of `scoreMatches` contains no element with
`relevanceScore ≤ 0.2` (every survivor satisfies `0.2 < relevanceScore`,
with `relevanceScore = 0.7 * semanticScore + 0.3 * keywordScore`), is
sorted in descending `relevanceScore` order, and has length at most
`maxResults`. -/
theorem claim_C4_score_filter_order (ms : List (SearchMatch ℝ)) (q : String)
    (n : Nat) :
    (∀ sm ∈ scoreMatches ℝ Real.exp ms q n,
        (1/5 : ℝ) < sm.relevanceScore ∧
        sm.relevanceScore = 7/10 * sm.semanticScore + 3/10 * sm.keywordScore)
    ∧ (scoreMatches ℝ Real.exp ms q n).Pairwise
        (fun a b => b.relevanceScore ≤ a.relevanceScore)
    ∧ (scoreMatches ℝ Real.exp ms q n).length ≤ n := by
  refine ⟨?_, ?_, ?_⟩
  · intro sm hsm
    rcases scoreMatches_mem ℝ Real.exp ms q n sm hsm with ⟨⟨m, _, rfl⟩, hgt⟩
    exact ⟨hgt, by simp [scoreOne]; ring⟩
  · have hp := jsSortBy_pairwise
      (fun (a b : ScoredMatch ℝ) => decide (b.relevanceScore ≤ a.relevanceScore))
      (fun a b => by
        rcases le_total b.relevanceScore a.relevanceScore with h | h
        · exact Or.inl (decide_eq_true h)
        · exact Or.inr (decide_eq_true h))
      (fun a b c hab hbc => decide_eq_true
        (le_trans (of_decide_eq_true hbc) (of_decide_eq_true hab)))
      ((ms.map (scoreOne ℝ Real.exp q)).filter
        (fun m => decide ((1/5 : ℝ) < m.relevanceScore)))
    have hp2 := hp.imp (fun h => of_decide_eq_true h)
    exact hp2.sublist (List.take_sublist n _)
  · exact List.length_take_le n _

/-- Witness for claim C4 at the concrete input `[mC3]`, `"test"`, `5`. -/
theorem claim_C4_score_filter_order_witness :
    (scoreMatches ℝ Real.exp [mC3] "test" 5).length ≤ 5 :=
  (claim_C4_score_filter_order [mC3] "test" 5).2.2

lemma strMk_toList (cs : List Char) : (⟨cs⟩ : String).toList = cs := rfl

lemma jsTruncateEllipsis_length (s : List Char) :
    (jsTruncateEllipsis s).toList.length ≤ 303 := by
  unfold jsTruncateEllipsis
  by_cases h : 300 < s.length
  · rw [if_pos h]
    simp only [strMk_toList, List.length_append, List.length_take,
      List.length_cons, List.length_nil]
    omega
  · rw [if_neg h]
    simp only [strMk_toList]
    omega

lemma formatSnippet_sentinel : formatSnippet UNKNOWN_PHRASE = UNKNOWN_PHRASE := by
  decide

lemma extractRelevantSnippet_heuristic (text query : String)
    (hS : (splitSentences text).isEmpty = false) :
    extractRelevantSnippet false none text query =
      match (jsSortBy (fun a b => decide (b.2 ≤ a.2))
          ((scoredSentences text query).filter (fun s => decide (0 < s.2)))).head? with
      | none => UNKNOWN_PHRASE
      | some t => jsTruncateEllipsis t.1 := by
  unfold extractRelevantSnippet
  rw [if_neg (by simp [hS])]
  rfl

/-- Claim C5 (amended): with the LLM path disabled, `extractRelevantSnippet`
returns either the sentinel or an excerpt of at most 303 characters — up to
300 characters of the chosen (trimmed) sentence plus the 3-character
ellipsis marker appended when it exceeds 300 characters; the excerpt comes
from a sentence of the text of maximal keyword score (query keywords of
length `> 3`), that score being positive, and the sentinel is returned when
no sentence scores above zero. -/
theorem claim_C5_snippet_contract (text query : String) :
    (extractRelevantSnippet false none text query = UNKNOWN_PHRASE ∨
      ((extractRelevantSnippet false none text query).toList.length ≤ 303 ∧
       ∃ s ∈ splitSentences text,
         0 < sentenceScore query s ∧
         (∀ s2 ∈ splitSentences text,
           sentenceScore query s2 ≤ sentenceScore query s) ∧
         extractRelevantSnippet false none text query =
           jsTruncateEllipsis (jsTrimL s)))
    ∧ ((∀ s ∈ splitSentences text, sentenceScore query s = 0) →
        extractRelevantSnippet false none text query = UNKNOWN_PHRASE) := by
  by_cases hS : (splitSentences text).isEmpty
  · constructor
    · exact Or.inl (by simp [extractRelevantSnippet, hS])
    · intro _
      simp [extractRelevantSnippet, hS]
  · have hS2 : (splitSentences text).isEmpty = false := by
      simpa using hS
    rw [extractRelevantSnippet_heuristic text query hS2]
    constructor
    · cases ht : (jsSortBy (fun a b => decide (b.2 ≤ a.2))
          ((scoredSentences text query).filter (fun s => decide (0 < s.2)))).head? with
      | none => exact Or.inl rfl
      | some t =>
        refine Or.inr ⟨jsTruncateEllipsis_length t.1, ?_⟩
        have htm : t ∈ jsSortBy (fun a b => decide (b.2 ≤ a.2))
            ((scoredSentences text query).filter (fun s => decide (0 < s.2))) :=
          List.mem_of_mem_head? ht
        have htf : t ∈ (scoredSentences text query).filter
            (fun s => decide (0 < s.2)) :=
          (jsSortBy_perm _ _).mem_iff.mp htm
        rcases List.mem_filter.mp htf with ⟨hts, htpos⟩
        rcases List.mem_map.mp hts with ⟨s, hsmem, hst⟩
        refine ⟨s, hsmem, ?_, ?_, ?_⟩
        · have := of_decide_eq_true htpos
          rw [← hst] at *
          simpa using this
        · intro s2 hs2
          by_cases hz : sentenceScore query s2 = 0
          · rw [hz]; exact Nat.zero_le _
          · have hpos2 : 0 < sentenceScore query s2 := Nat.pos_of_ne_zero hz
            have hmem2 : ((jsTrimL s2, sentenceScore query s2) : List Char × Nat) ∈
                (scoredSentences text query).filter (fun s => decide (0 < s.2)) := by
              refine List.mem_filter.mpr ⟨?_, by simpa using hpos2⟩
              exact List.mem_map.mpr ⟨s2, hs2, rfl⟩
            have hmem3 : ((jsTrimL s2, sentenceScore query s2) : List Char × Nat) ∈
                jsSortBy (fun a b => decide (b.2 ≤ a.2))
                  ((scoredSentences text query).filter (fun s => decide (0 < s.2))) :=
              (jsSortBy_perm _ _).mem_iff.mpr hmem2
            have hpw := jsSortBy_pairwise
              (fun (a b : List Char × Nat) => decide (b.2 ≤ a.2))
              (fun a b => by
                rcases le_total b.2 a.2 with h | h
                · exact Or.inl (decide_eq_true h)
                · exact Or.inr (decide_eq_true h))
              (fun a b c hab hbc => decide_eq_true
                (le_trans (of_decide_eq_true hbc) (of_decide_eq_true hab)))
              ((scoredSentences text query).filter (fun s => decide (0 < s.2)))
            rcases head?_pairwise_le _ _ t ht hpw _ hmem3 with heq | hle
            · have : sentenceScore query s2 = t.2 := by rw [← heq]
              rw [this, ← hst]
            · have := of_decide_eq_true hle
              have h2 : sentenceScore query s2 ≤ t.2 := by simpa using this
              rw [← hst] at h2
              simpa using h2
        · rw [← hst]
    · intro hall
      have hnil : (scoredSentences text query).filter (fun s => decide (0 < s.2)) = [] := by
        rw [List.filter_eq_nil_iff]
        intro a ha
        rcases List.mem_map.mp ha with ⟨s, hsm, hsa⟩
        rw [← hsa]
        simp [hall s hsm]
      rw [hnil]
      rfl

/-- The single over-300-character sentence used to refute the 300-character
bound of claim C5. -/
def cLongText : String := ⟨List.replicate 310 'a' ++ ['.']⟩

set_option maxRecDepth 4000 in
/-- Counterexample to claim C5 as stated: the heuristic path returns a
303-character excerpt (300 characters plus the `...` marker) for a
keyword-bearing sentence longer than 300 characters, violating the claimed
300-character bound while not being the sentinel. -/
theorem claim_C5_counterexample :
    (extractRelevantSnippet false none cLongText "aaaa").toList.length = 303 ∧
    extractRelevantSnippet false none cLongText "aaaa" ≠ UNKNOWN_PHRASE := by
  constructor
  · decide
  · decide

/-- Witness for claim C5: a text whose sentences all score zero resolves to
the sentinel. -/
theorem claim_C5_snippet_contract_witness :
    extractRelevantSnippet false none "alpha." "zzzz" = UNKNOWN_PHRASE :=
  (claim_C5_snippet_contract "alpha." "zzzz").2 (by decide)

/-- Claim C10: a text containing no sentence-terminated segment (the
sentence regex finds nothing) makes `extractRelevantSnippet` return the
sentinel on every path, for every query — even one whose keywords all occur
in the text — and such a candidate therefore contributes no citable source
in the `answerQuestion` assembly. -/
theorem claim_C10_no_terminator (useLLM : Bool) (llm : Option String)
    (text query : String) (h : splitSentences text = []) :
    extractRelevantSnippet useLLM llm text query = UNKNOWN_PHRASE
    ∧ ∀ (env : AssembleEnv) (question : String) (m : Candidate),
        m.text = some text → qnaSources env question [m] = [] := by
  constructor
  · simp [extractRelevantSnippet, h]
  · intro env question m hm
    have hres : qnaResolved env question m = UNKNOWN_PHRASE := by
      rw [qnaResolved, hm]
      simp only [Option.getD_some]
      rw [show extractRelevantSnippet env.useLLM (env.llmSnip text question)
          text question = UNKNOWN_PHRASE by simp [extractRelevantSnippet, h]]
      exact formatSnippet_sentinel
    simp [qnaSources, hres]

/-- Witness for claim C10: a terminator-free text containing every keyword
of the query still resolves to the sentinel. -/
theorem claim_C10_no_terminator_witness :
    extractRelevantSnippet false none "test test test" "test test" =
      UNKNOWN_PHRASE :=
  (claim_C10_no_terminator false none "test test test" "test test"
    (by decide)).1

/-- Claim C2: a candidate whose snippet extraction resolves to the sentinel
is dropped before any source token is generated.  Conjuncts: (1) a raw
extractor sentinel survives `formatSnippet` unchanged, so the drop check
fires; (2) such a match contributes no item (hence no token or summary) in
`fetchRelevantMatches`; (3) no assembled item carries the sentinel as its
snippet; (4) when every candidate resolves to the sentinel the result set
is empty with the no-documents answer; (5) `answerQuestion`'s source list
is exactly the non-sentinel candidates' tokens; (6) all-sentinel inputs
yield no sources there either. -/
theorem claim_C2_sentinel_exclusion (K : Type) (env : AssembleEnv)
    (recommend : List (FRMItem K) → List Nat) (brief : String)
    (query question : String) (scored : List (ScoredMatch K))
    (ms : List Candidate) :
    (∀ m ∈ scored,
        extractRelevantSnippet false none (m.base.text.getD "") query =
          UNKNOWN_PHRASE →
        frmResolved K query m = UNKNOWN_PHRASE)
    ∧ (∀ m ∈ scored, frmResolved K query m = UNKNOWN_PHRASE →
        ∀ it ∈ frmItems K env query scored, it.originalMatch ≠ m)
    ∧ (∀ it ∈ frmItems K env query scored, it.snippet ≠ UNKNOWN_PHRASE)
    ∧ ((∀ m ∈ scored, frmResolved K query m = UNKNOWN_PHRASE) →
        fetchRelevantMatchesTail K env recommend brief query scored =
          ⟨[], "No relevant documents found."⟩)
    ∧ (qnaSources env question ms =
        (ms.filter (fun m => !(qnaResolved env question m == UNKNOWN_PHRASE))).map
          (fun m => ⟨extractSource m.uuid m.filename,
            jsStrOr (some (formatLawName (env.extractLawName (m.text.getD ""))))
              "Document", m.uuid, m.filename⟩))
    ∧ ((∀ m ∈ ms, qnaResolved env question m = UNKNOWN_PHRASE) →
        qnaSources env question ms = []) := by
  have hchar : ∀ ns : List Candidate, qnaSources env question ns =
      (ns.filter (fun m => !(qnaResolved env question m == UNKNOWN_PHRASE))).map
        (fun m => ⟨extractSource m.uuid m.filename,
          jsStrOr (some (formatLawName (env.extractLawName (m.text.getD ""))))
            "Document", m.uuid, m.filename⟩) := by
    intro ns
    induction ns with
    | nil => rfl
    | cons m t ih =>
      by_cases hm : qnaResolved env question m = UNKNOWN_PHRASE
      · simp only [qnaSources] at ih ⊢
        simp [List.filterMap_cons, List.filter_cons, hm, ih]
      · simp only [qnaSources] at ih ⊢
        simp [List.filterMap_cons, List.filter_cons, hm, ih]
  refine ⟨?_, ?_, ?_, ?_, hchar ms, ?_⟩
  · intro m _ hraw
    rw [frmResolved, hraw]
    exact formatSnippet_sentinel
  · intro m _ hsent it hit heq
    rcases List.mem_filterMap.mp hit with ⟨p, _, hfp⟩
    by_cases hc : frmResolved K query p.2 = UNKNOWN_PHRASE
    · simp [hc] at hfp
    · simp only [hc, if_false, Option.some.injEq] at hfp
      have : it.originalMatch = p.2 := by rw [← hfp]
      rw [heq] at this
      rw [← this] at hc
      exact hc hsent
  · intro it hit
    rcases List.mem_filterMap.mp hit with ⟨p, _, hfp⟩
    by_cases hc : frmResolved K query p.2 = UNKNOWN_PHRASE
    · simp [hc] at hfp
    · simp only [hc, if_false, Option.some.injEq] at hfp
      intro hsn
      rw [← hfp] at hsn
      exact hc hsn
  · intro hall
    have hnil : frmItems K env query scored = [] := by
      rw [frmItems, List.filterMap_eq_nil_iff]
      intro p hp
      have hmem : p.2 ∈ scored := by
        have := List.mem_map_of_mem Prod.snd hp
        rwa [List.enum_map_snd] at this
      simp [hall p.2 hmem]
    rw [fetchRelevantMatchesTail, hnil]
    rfl
  · intro hall
    rw [hchar ms, List.map_eq_nil_iff, List.filter_eq_nil_iff]
    intro m hm
    simp [hall m hm]

/-- Assembly environment for the concrete witnesses: no LLM, fixed law-name
extractor. -/
def frmEnvA : AssembleEnv := ⟨fun _ => "Some Law", false, fun _ _ => none⟩

/-- A scored match whose text has no sentence terminator, so the extractor
resolves to the sentinel. -/
def smBad : ScoredMatch ℚ := ⟨⟨"u1", some "f1", some "no terminator text", none⟩, 0, 0, 0⟩

/-- Witness for claim C2: an all-sentinel input yields the empty result set
and the no-documents answer. -/
theorem claim_C2_sentinel_exclusion_witness :
    fetchRelevantMatchesTail ℚ frmEnvA (fun _ => []) "" "q" [smBad] =
      ⟨[], "No relevant documents found."⟩ :=
  (claim_C2_sentinel_exclusion ℚ frmEnvA (fun _ => []) "" "q" "q" [smBad]
    []).2.2.2.1 (by decide)

lemma sortRagRows_perm (env : SearchEnv) (rows : List DocRow) :
    (sortRagRows env rows).Perm rows := by
  cases h : env.ragToday with
  | none => simp [sortRagRows, h]
  | some t0 => simpa [sortRagRows, h] using jsSortBy_perm _ rows

/-- Claim C1: with `searchByTitle = true` and a store containing a row whose
title exactly equals one of the query's expanded variants, `searchNearest`
resolves through the exact stage: the result is exactly the (date-sorted)
exact-match rows of the first hitting variant, each returned candidate
derives from a store row whose trimmed title equals that variant, the
embedding provider is never called, and the vector query never runs. -/
theorem claim_C1_title_cascade (env : SearchEnv) (query : String) (k : Nat)
    (allow : Bool) (hk : 0 < k) (hq : jsTrim query ≠ "")
    (h : ∃ v ∈ generateTitleVariants (jsTrim query),
      ∃ r ∈ env.store, r.title = some v) :
    (searchNearest env query k ⟨true, allow⟩).stage = .exactTitle
    ∧ (searchNearest env query k ⟨true, allow⟩).embedCalled = false
    ∧ (searchNearest env query k ⟨true, allow⟩).queryVector = none
    ∧ ∃ v ∈ generateTitleVariants (jsTrim query),
        exactRows env.store v k ≠ [] ∧
        (searchNearest env query k ⟨true, allow⟩).res =
          .ok ((sortRagRows env (exactRows env.store v k)).map (candOf env)) ∧
        ∀ c ∈ (sortRagRows env (exactRows env.store v k)).map (candOf env),
          ∃ r ∈ env.store, (∃ t, r.title = some t ∧ sqlTrim t = sqlTrim v) ∧
            c = candOf env r := by
  have hq0 : query ≠ "" := by
    intro hc
    rw [hc] at hq
    exact hq rfl
  have hne : ∃ v ∈ generateTitleVariants (jsTrim query),
      exactRows env.store v k ≠ [] := by
    rcases h with ⟨v, hv, r, hr, ht⟩
    refine ⟨v, hv, ?_⟩
    intro hnil
    rw [exactRows] at hnil
    rcases List.take_eq_nil_iff.mp hnil with hk0 | hfil
    · omega
    · have : r ∈ env.store.filter (fun r =>
          match r.title with
          | some t => sqlTrim t == sqlTrim v
          | none => false) :=
        List.mem_filter.mpr ⟨hr, by rw [ht]; simp⟩
      rw [hfil] at this
      simp at this
  rcases firstNonempty_of_exists (fun v => exactRows env.store v k)
      (generateTitleVariants (jsTrim query)) hne with ⟨v0, hv0, hfe, hne0⟩
  have hto : titleOutcome env query k true =
      .hit .exactTitle (exactRows env.store v0 k) := by
    unfold titleOutcome
    rw [if_pos ⟨rfl, hq⟩]
    unfold titleLookup
    simp only [hfe]
  have hsn : searchNearest env query k ⟨true, allow⟩ =
      ⟨.ok ((sortRagRows env (exactRows env.store v0 k)).map (candOf env)),
        .exactTitle, false, none⟩ := by
    unfold searchNearest
    rw [if_neg hq0]
    have : (SearchOpts.mk true allow).searchByTitle = true := rfl
    rw [this, hto]
  refine ⟨by rw [hsn], by rw [hsn], by rw [hsn], v0, hv0, hne0, by rw [hsn], ?_⟩
  intro c hc
  rcases List.mem_map.mp hc with ⟨r, hrm, hcr⟩
  have hr2 : r ∈ exactRows env.store v0 k := (sortRagRows_perm env _).mem_iff.mp hrm
  have hr3 : r ∈ env.store.filter (fun r =>
      match r.title with
      | some t => sqlTrim t == sqlTrim v0
      | none => false) := List.mem_of_mem_take hr2
  rcases List.mem_filter.mp hr3 with ⟨hrs, hpred⟩
  refine ⟨r, hrs, ?_, hcr.symm⟩
  cases ht : r.title with
  | none => rw [ht] at hpred; simp at hpred
  | some t =>
    rw [ht] at hpred
    exact ⟨t, rfl, by simpa using hpred⟩

/-- Store row and environment for the claim C1 witness. -/
def rowC1 : DocRow :=
  ⟨"u1", some "ra1061", some "statutes", some "1954-06-13",
    some "Republic Act No. 1061", some "Statute"⟩

/-- Concrete environment whose store holds one exact-title row. -/
def envC1 : SearchEnv :=
  ⟨[rowC1], fun _ _ _ => [], fun _ => none, fun _ => some "body text",
    fun _ => none, none, 0⟩

/-- Witness for claim C1 at the query `"RA 1061"` against a store titled
`"Republic Act No. 1061"`. -/
theorem claim_C1_title_cascade_witness :
    (searchNearest envC1 "RA 1061" 5 ⟨true, true⟩).embedCalled = false ∧
    (searchNearest envC1 "RA 1061" 5 ⟨true, true⟩).stage = .exactTitle :=
  ⟨(claim_C1_title_cascade envC1 "RA 1061" 5 true (by decide) (by decide)
      ⟨"Republic Act No. 1061", by decide, rowC1, by decide, rfl⟩).2.1,
   (claim_C1_title_cascade envC1 "RA 1061" 5 true (by decide) (by decide)
      ⟨"Republic Act No. 1061", by decide, rowC1, by decide, rfl⟩).1⟩

/-- Claim C7 (amended): when the vector phase is reached with a query
embedding whose length differs from the (truthy) store dimension, then with
downsampling disallowed the call fails with the dimension-mismatch error,
and with downsampling allowed no error is raised and the vector passed to
the store is `downsampleEmbedding emb dbDim` — which has the store
dimension when the embedding is longer than it, but is the unchanged
embedding (never padded) when it is shorter. -/
theorem claim_C7_dimension_mismatch (env : SearchEnv) (q : String) (k : Nat)
    (sbt : Bool) (filt : Option String) (emb : List ℚ)
    (hq : q ≠ "")
    (ht : titleOutcome env q k sbt = .miss filt)
    (he : env.embed q = some emb) (hne : emb ≠ [])
    (hdim : env.dbDim ≠ 0) (hlen : emb.length ≠ env.dbDim) :
    (searchNearest env q k ⟨sbt, false⟩).res =
      .error (.dimensionMismatch emb.length env.dbDim)
    ∧ (searchNearest env q k ⟨sbt, false⟩).stage = .dimMismatch
    ∧ (∃ cands, (searchNearest env q k ⟨sbt, true⟩).res = .ok cands)
    ∧ (searchNearest env q k ⟨sbt, true⟩).queryVector =
        some (downsampleEmbedding emb env.dbDim)
    ∧ (env.dbDim < emb.length →
        (downsampleEmbedding emb env.dbDim).length = env.dbDim)
    ∧ (emb.length ≤ env.dbDim → downsampleEmbedding emb env.dbDim = emb) := by
  have hie : emb.isEmpty = false := by
    simpa [List.isEmpty_iff] using hne
  have hvp : ∀ allow : Bool, searchNearest env q k ⟨sbt, allow⟩ =
      vectorPhase env q k allow filt := by
    intro allow
    unfold searchNearest
    rw [if_neg hq]
    have : (SearchOpts.mk sbt allow).searchByTitle = sbt := rfl
    rw [this, ht]
  have hvf : vectorPhase env q k false filt =
      ⟨.error (.dimensionMismatch emb.length env.dbDim), .dimMismatch, true,
        none⟩ := by
    simp only [vectorPhase, he, hie, Bool.false_eq_true, if_false]
    rw [if_pos ⟨hdim, hlen⟩]
  have hvt : vectorPhase env q k true filt =
      ⟨.ok (((sortRagVec env (env.vectorRows
          (downsampleEmbedding emb env.dbDim) k filt)).map Prod.fst).map
        (candOf env)), .vector, true,
        some (downsampleEmbedding emb env.dbDim)⟩ := by
    simp only [vectorPhase, he, hie, Bool.false_eq_true, if_false]
    rw [if_pos ⟨hdim, hlen⟩]
    simp
  refine ⟨by rw [hvp false, hvf], by rw [hvp false, hvf],
    ⟨_, by rw [hvp true, hvt]⟩, by rw [hvp true, hvt], ?_, ?_⟩
  · intro hlt
    exact downsample_length emb env.dbDim (Nat.pos_of_ne_zero hdim) hlt
  · intro hle
    simp [downsampleEmbedding, Or.inr hle]

/-- Environment for the claim C7 counterexample: store dimension 3, query
embedding of length 2. -/
def envC7 : SearchEnv :=
  ⟨[], fun _ _ _ => [], fun _ => some [1, 2], fun _ => none, fun _ => none,
    none, 3⟩

/-- Counterexample to claim C7 as stated: under a dimension mismatch with
downsampling allowed, a query embedding shorter than the store dimension is
passed through unchanged (length 2, not the store dimension 3) — it is not
"downsampled to the store dimension" — while no error is raised. -/
theorem claim_C7_counterexample :
    ((searchNearest envC7 "q" 5 ⟨false, true⟩).queryVector.map List.length) =
      some 2
    ∧ envC7.dbDim = 3
    ∧ (searchNearest envC7 "q" 5 ⟨false, true⟩).res.toOption = some [] := by
  refine ⟨by decide, rfl, by decide⟩

/-- Witness for claim C7: with store dimension 3 and a length-2 embedding,
downsampling disallowed raises the dimension-mismatch error. -/
theorem claim_C7_dimension_mismatch_witness :
    (searchNearest envC7 "q" 5 ⟨false, false⟩).res =
      .error (.dimensionMismatch 2 envC7.dbDim) :=
  (claim_C7_dimension_mismatch envC7 "q" 5 false none [1, 2] (by decide)
    (by decide) rfl (by decide) (by decide) (by decide)).1

/-- Claim C8 (amended): only the exactly-empty query string returns the
empty list immediately with no embedding call; and whenever the embedding
capability returns `null` or an empty vector, `searchNearest` returns the
empty list rather than raising, without running the vector query.  (A
whitespace-only query is not caught by the `!query || query === ''` guard;
see the counterexample.) -/
theorem claim_C8_empty_query (env : SearchEnv) (k : Nat) (opts : SearchOpts)
    (q : String) :
    (searchNearest env "" k opts).res = .ok []
    ∧ (searchNearest env "" k opts).embedCalled = false
    ∧ (searchNearest env "" k opts).stage = .earlyEmpty
    ∧ (∀ filt, q ≠ "" →
        titleOutcome env q k opts.searchByTitle = .miss filt →
        (env.embed q = none ∨ env.embed q = some []) →
        (searchNearest env q k opts).res = .ok [] ∧
        (searchNearest env q k opts).queryVector = none ∧
        (searchNearest env q k opts).stage = .noEmbedding) := by
  refine ⟨by simp [searchNearest], by simp [searchNearest],
    by simp [searchNearest], ?_⟩
  intro filt hq ht he
  have hsn : searchNearest env q k opts = vectorPhase env q k
      opts.allowDownsample filt := by
    unfold searchNearest
    rw [if_neg hq, ht]
  rcases he with he | he
  · have : vectorPhase env q k opts.allowDownsample filt =
        ⟨.ok [], .noEmbedding, true, none⟩ := by
      unfold vectorPhase
      rw [he]
    rw [hsn, this]
    exact ⟨rfl, rfl, rfl⟩
  · have : vectorPhase env q k opts.allowDownsample filt =
        ⟨.ok [], .noEmbedding, true, none⟩ := by
      unfold vectorPhase
      rw [he]
      rfl
    rw [hsn, this]
    exact ⟨rfl, rfl, rfl⟩

/-- Environment for the claim C8 counterexample and witness. -/
def envC8 : SearchEnv :=
  ⟨[], fun _ _ _ => [], fun _ => some [], fun _ => none, fun _ => none,
    none, 0⟩

/-- Counterexample to claim C8 as stated: a whitespace-only (blank) query is
not caught by the `!query || query === ''` guard, so `searchNearest` does
call the embedding provider rather than returning immediately with no
embedding call. -/
theorem claim_C8_counterexample :
    jsTrim " " = "" ∧
    (searchNearest envC8 " " 5 ⟨false, true⟩).embedCalled = true := by
  refine ⟨by decide, by decide⟩

/-- Witness for claim C8: a non-empty query whose embedding comes back
empty yields the empty result list without an error. -/
theorem claim_C8_empty_query_witness :
    (searchNearest envC8 "negligence" 5 ⟨false, true⟩).res = .ok [] :=
  ((claim_C8_empty_query envC8 5 ⟨false, true⟩ "negligence").2.2.2 none
    (by decide) (by decide) (Or.inr rfl)).1

/-- Claim C9: the final result list of `researcherExecutePlan` contains
every surfaced `uuid` exactly once (its uuid list has no duplicates and
covers every hit of the surfaced stream), and the entry retained for a
`uuid` is the first hit of the surfaced stream (direct searches followed by
citation follow-up) carrying it. -/
theorem claim_C9_dedup (env : ResearchEnv) (plan : RPlan) :
    ((researcherExecutePlan env plan).map (fun h => h.uuid)).Nodup
    ∧ (∀ h ∈ researcherStream env plan,
        ∃ x ∈ researcherExecutePlan env plan, x.uuid = h.uuid)
    ∧ (∀ x ∈ researcherExecutePlan env plan,
        x ∈ researcherStream env plan ∧
        (researcherStream env plan).find? (fun h => h.uuid == x.uuid) =
          some x) := by
  refine ⟨seenFold_keys_nodup (researcherStream env plan) [] (by simp),
    seenFold_covers (researcherStream env plan) [], ?_⟩
  intro x hx
  have hm := seenFold_mem (researcherStream env plan) [] x hx
  have hf := seenFold_find (researcherStream env plan) [] x hx
  rcases hm with hm | hm
  · simp at hm
  · rcases hf with hf | ⟨_, hf⟩
    · simp at hf
    · exact ⟨hm, hf⟩

/-- Research plan for the claim C9 witness. -/
def planR : RPlan := ⟨none, [⟨some "alpha beta", some 2, some "prosecutor"⟩]⟩

/-- Direct hits and a citation hit sharing uuid `uA`. -/
def hitA : Candidate :=
  ⟨"uA", some "doc_a", none, none, some "alpha beta cites RA 55.\nmore\nlines"⟩

/-- A second direct hit with a distinct uuid. -/
def hitB : Candidate := ⟨"uB", some "doc_b", none, none, some "alpha beta.\nx\ny"⟩

/-- The citation-path hit that duplicates uuid `uA`. -/
def hitA2 : Candidate := ⟨"uA", some "doc_a2", none, none, some "alpha beta.\nx\ny"⟩

/-- Search oracle for the claim C9 witness: the direct search surfaces
`hitA` and `hitB`; the citation follow-up (title search) surfaces `hitA2`,
which shares `hitA`'s uuid. -/
def envR : ResearchEnv :=
  ⟨fun q _ byTitle =>
    if byTitle then [hitA2]
    else if q == "alpha beta" then [hitA, hitB] else [], some "1987"⟩

/-- Witness for claim C9: the uuid surfaced by both the direct search and
the citation follow-up appears in the final result list. -/
theorem claim_C9_dedup_witness :
    ∃ x ∈ researcherExecutePlan envR planR,
      x.uuid = (citationHitOf "RA 55" hitA2).uuid :=
  (claim_C9_dedup envR planR).2.1 (citationHitOf "RA 55" hitA2) (by decide)
